import Mathlib

/-!
# envvault: resolving environment variables from Vault secrets

A shallow embedding of the secret-resolution pipeline of `envvault`
(`vault.go`, `environment.go`, `envvault.go`) together with the properties
stated for it.

Conventions of the embedding.

* A Go `string` / `[]byte` holding text is a `List Char` (`GoString`).  Every
  separator the program searches for (`:`, `=`, `_VAULT`, `secret_role_id`)
  is ASCII, so searching and slicing by characters agrees with Go's
  byte-wise behaviour on well-formed UTF-8 text.
* A Go `map[string]T` is a list of key/value pairs with pairwise distinct
  keys (`GoMap`).  The order in which `range` visits a map is the runtime's
  choice: the functions that range over a map take that order as an argument.
* A Go `error` is a `GoError`; `nil` is `none`.
* The packages `net/http`, `encoding/json`, `strings`, `fmt`, `log` are
  collaborators of the program.  `strings` and `fmt` are modelled by their
  documented behaviour, `net/http` by an arbitrary transport function, and
  `encoding/json` by a decoder for the three target types the program uses.
-/

namespace Envvault

/-! ## Strings (package `strings`) -/

/-- A Go string, as its sequence of characters. -/
abbrev GoString := List Char

/-- Go's `strings.Index`: the position of the first occurrence of `sep` in `s`. -/
def Index : GoString → GoString → Option Nat
  | [], sep => if sep.isEmpty then some 0 else none
  | c :: t, sep =>
    if sep.isPrefixOf (c :: t) then some 0 else (Index t sep).map (· + 1)

/-- Go's `strings.Contains`. -/
def Contains (s substr : GoString) : Bool := (Index s substr).isSome

/-- Go's `strings.HasSuffix`. -/
def HasSuffix (s suffix : GoString) : Bool :=
  decide (suffix.length ≤ s.length) && (s.drop (s.length - suffix.length) == suffix)

/-- Go's `strings.TrimSuffix`. -/
def TrimSuffix (s suffix : GoString) : GoString :=
  if HasSuffix s suffix then s.take (s.length - suffix.length) else s

/-- Go's `strings.Count` for a non-empty separator: the number of
non-overlapping occurrences, scanning from the left. -/
def countFrom (sep : GoString) : Nat → GoString → Nat
  | 0, _ => 0
  | fuel + 1, s =>
    match Index s sep with
    | none => 0
    | some m => 1 + countFrom sep fuel (s.drop (m + sep.length))

/-- Go's `strings.Count`. -/
def Count (s sep : GoString) : Nat :=
  if sep.isEmpty then s.length + 1 else countFrom sep s.length s

/-- The loop of `strings.genSplit`: cut at most `n` times at `sep`, the rest
of the string being the last piece. -/
def splitLoop (sep : GoString) : Nat → GoString → List GoString
  | 0, s => [s]
  | n + 1, s =>
    match Index s sep with
    | none => [s]
    | some m => s.take m :: splitLoop sep n (s.drop (m + sep.length))

/-- Go's `strings.explode`: split into single characters, at most `n` pieces. -/
def explode : Nat → GoString → List GoString
  | 0, _ => []
  | _ + 1, [] => []
  | 1, s => [s]
  | n + 2, c :: t => [c] :: explode (n + 1) t

/-- Go's `strings.SplitN(s, sep, n)`. -/
def SplitN (s sep : GoString) (n : Int) : List GoString :=
  if n = 0 then []
  else if sep.isEmpty then
    explode (if n < 0 then s.length else min n.toNat s.length) s
  else
    let n₁ : Nat := if n < 0 then Count s sep + 1 else n.toNat
    let n₂ : Nat := if n₁ > s.length + 1 then s.length + 1 else n₁
    splitLoop sep (n₂ - 1) s

/-! ## Errors -/

/-- A Go `error` value.  `lib` is an error produced by a library the program
calls (`net/http`, `io`, `encoding/json`), `errorf` is one built with
`fmt.Errorf`, `wrap` one built with `errors.Wrap` / `errors.Wrapf`. -/
inductive GoError where
  | lib (text : GoString)
  | errorf (msg : GoString)
  | wrap (cause : GoError) (msg : GoString)
deriving DecidableEq, Repr

/-- The method `Error()`: the message of an error.  `errors.Wrap` puts its
message in front of the cause's, separated by `": "`. -/
def GoError.Error : GoError → GoString
  | .lib text => text
  | .errorf msg => msg
  | .wrap cause msg => msg ++ ": ".toList ++ cause.Error

/-- What a call of a Go function does: it returns, or it panics (a run-time
panic ends the process; nothing in the program recovers). -/
inductive Outcome (α : Type) where
  | ret (a : α)
  | panic (text : GoString)
deriving DecidableEq, Repr

/-! ## Maps -/

/-- A Go map with string keys. -/
abbrev GoMap (V : Type) := List (GoString × V)

/-- Reading `m[k]` with the comma-ok form: `none` when the key is absent. -/
def GoMap.get {V : Type} (m : GoMap V) (k : GoString) : Option V :=
  match m with
  | [] => none
  | (k₁, v) :: rest => if k₁ = k then some v else GoMap.get rest k

/-- The assignment `m[k] = v`: an existing entry is overwritten in place, a
new key is added. -/
def GoMap.set {V : Type} (m : GoMap V) (k : GoString) (v : V) : GoMap V :=
  match m with
  | [] => [(k, v)]
  | (k₁, v₁) :: rest =>
    if k₁ = k then (k, v) :: rest else (k₁, v₁) :: GoMap.set rest k v

/-! ## JSON (package `encoding/json`)

`json.Unmarshal` first checks that the whole input is one well-formed JSON
value (`checkValid`), then stores the value into the target.  The model
parses the input to a `JValue` and decodes that value into the target the
way the library does for structs of strings and maps of strings: names of
struct fields are matched case-insensitively, unknown names are skipped,
`null` leaves the target as it is, the last of repeated names wins, and a
value of another kind than the target is an error.  The text of library
errors is not modelled; each carries a fixed description. -/

/-- A JSON value. -/
inductive JValue where
  | null
  | bool (b : Bool)
  | number (literal : GoString)
  | string (s : GoString)
  | array (items : List JValue)
  | object (members : List (GoString × JValue))

/-- JSON white space. -/
def isSpace (c : Char) : Bool := c = ' ' || c = '\t' || c = '\r' || c = '\n'

/-- Drop leading white space. -/
def skipSpace : GoString → GoString
  | [] => []
  | c :: t => if isSpace c then skipSpace t else c :: t

/-- The value of a hexadecimal digit. -/
def hexDigit (c : Char) : Option Nat :=
  if '0' ≤ c ∧ c ≤ '9' then some (c.toNat - '0'.toNat)
  else if 'a' ≤ c ∧ c ≤ 'f' then some (c.toNat - 'a'.toNat + 10)
  else if 'A' ≤ c ∧ c ≤ 'F' then some (c.toNat - 'A'.toNat + 10)
  else none

/-- The library's `getu4`: the code unit of a leading `\uXXXX`. -/
def getu4 : GoString → Option Nat
  | '\\' :: 'u' :: a :: b :: c :: d :: _ =>
    match hexDigit a, hexDigit b, hexDigit c, hexDigit d with
    | some x, some y, some z, some t => some (((x * 16 + y) * 16 + z) * 16 + t)
    | _, _, _, _ => none
  | _ => none

/-- The character of a simple escape `\c`. -/
def unescape (c : Char) : Option Char :=
  if c = '"' then some '"'
  else if c = '\\' then some '\\'
  else if c = '/' then some '/'
  else if c = 'b' then some (Char.ofNat 8)
  else if c = 'f' then some (Char.ofNat 12)
  else if c = 'n' then some '\n'
  else if c = 'r' then some '\r'
  else if c = 't' then some '\t'
  else none

/-- The rune written by `\uXXXX` at the head of `s`, and how many characters
of `s` it takes: a surrogate pair gives one rune, a lone surrogate the
replacement character. -/
def unicodeEscape (s : GoString) : Option (Char × Nat) :=
  match getu4 s with
  | none => none
  | some r =>
    if 0xD800 ≤ r ∧ r < 0xE000 then
      match getu4 (s.drop 6) with
      | some r₂ =>
        if r < 0xDC00 ∧ 0xDC00 ≤ r₂ ∧ r₂ < 0xE000 then
          some (Char.ofNat ((r - 0xD800) * 1024 + (r₂ - 0xDC00) + 0x10000), 12)
        else some (Char.ofNat 0xFFFD, 6)
      | none => some (Char.ofNat 0xFFFD, 6)
    else some (Char.ofNat r, 6)

/-- Read a string literal whose opening quote has been consumed: the decoded
text and the input after the closing quote. -/
def scanString : Nat → GoString → Option (GoString × GoString)
  | 0, _ => none
  | _ + 1, [] => none
  | fuel + 1, c :: t =>
    if c = '"' then some ([], t)
    else if c = '\\' then
      match t with
      | [] => none
      | e :: t₂ =>
        if e = 'u' then
          match unicodeEscape (c :: t) with
          | none => none
          | some (r, n) =>
            (scanString fuel ((c :: t).drop n)).map (fun p => (r :: p.1, p.2))
        else
          match unescape e with
          | none => none
          | some r => (scanString fuel t₂).map (fun p => (r :: p.1, p.2))
    else if c.toNat < 0x20 then none
    else (scanString fuel t).map (fun p => (c :: p.1, p.2))

/-- Take the leading decimal digits. -/
def spanDigits : GoString → GoString × GoString
  | [] => ([], [])
  | c :: t =>
    if c.isDigit then ((spanDigits t).1.cons c, (spanDigits t).2) else ([], c :: t)

/-- Read a number literal: `-? (0 | [1-9][0-9]*) (. [0-9]+)? ([eE] [+-]? [0-9]+)?`. -/
def scanNumber (s : GoString) : Option (GoString × GoString) :=
  let (sign, s₁) := match s with
    | '-' :: t => (['-'], t)
    | _ => ([], s)
  let intPart : Option (GoString × GoString) := match s₁ with
    | '0' :: t => some (['0'], t)
    | c :: t => if c.isDigit then some ((spanDigits (c :: t)).1, (spanDigits (c :: t)).2) else none
    | [] => none
  match intPart with
  | none => none
  | some (ds, s₂) =>
    let frac : Option (GoString × GoString) := match s₂ with
      | '.' :: t =>
        if (spanDigits t).1.isEmpty then none
        else some ('.' :: (spanDigits t).1, (spanDigits t).2)
      | _ => some ([], s₂)
    match frac with
    | none => none
    | some (fs, s₃) =>
      let exp : Option (GoString × GoString) := match s₃ with
        | e :: t =>
          if e = 'e' ∨ e = 'E' then
            let (sg, t₂) := match t with
              | '+' :: u => (['+'], u)
              | '-' :: u => (['-'], u)
              | _ => ([], t)
            if (spanDigits t₂).1.isEmpty then none
            else some (e :: sg ++ (spanDigits t₂).1, (spanDigits t₂).2)
          else some ([], s₃)
        | [] => some ([], s₃)
      match exp with
      | none => none
      | some (es, s₄) => some (sign ++ ds ++ fs ++ es, s₄)

mutual
/-- Read one JSON value (leading white space allowed). -/
def parseValue : Nat → GoString → Option (JValue × GoString)
  | 0, _ => none
  | fuel + 1, s =>
    match skipSpace s with
    | [] => none
    | c :: t =>
      if c = '{' then
        match skipSpace t with
        | '}' :: t₂ => some (.object [], t₂)
        | _ => (parseMembers fuel t).map (fun p => (.object p.1, p.2))
      else if c = '[' then
        match skipSpace t with
        | ']' :: t₂ => some (.array [], t₂)
        | _ => (parseItems fuel t).map (fun p => (.array p.1, p.2))
      else if c = '"' then
        (scanString (t.length + 1) t).map (fun p => (.string p.1, p.2))
      else if c = 't' then
        if "rue".toList.isPrefixOf t then some (.bool true, t.drop 3) else none
      else if c = 'f' then
        if "alse".toList.isPrefixOf t then some (.bool false, t.drop 4) else none
      else if c = 'n' then
        if "ull".toList.isPrefixOf t then some (.null, t.drop 3) else none
      else
        (scanNumber (c :: t)).map (fun p => (.number p.1, p.2))
/-- Read the members of an object after its `{`, up to and including `}`. -/
def parseMembers : Nat → GoString → Option (List (GoString × JValue) × GoString)
  | 0, _ => none
  | fuel + 1, s =>
    match skipSpace s with
    | '"' :: t =>
      match scanString (t.length + 1) t with
      | none => none
      | some (key, t₁) =>
        match skipSpace t₁ with
        | ':' :: t₂ =>
          match parseValue fuel t₂ with
          | none => none
          | some (v, t₃) =>
            match skipSpace t₃ with
            | ',' :: t₄ => (parseMembers fuel t₄).map (fun p => ((key, v) :: p.1, p.2))
            | '}' :: t₄ => some ([(key, v)], t₄)
            | _ => none
        | _ => none
    | _ => none
/-- Read the items of an array after its `[`, up to and including `]`. -/
def parseItems : Nat → GoString → Option (List JValue × GoString)
  | 0, _ => none
  | fuel + 1, s =>
    match parseValue fuel s with
    | none => none
    | some (v, t) =>
      match skipSpace t with
      | ',' :: t₂ => (parseItems fuel t₂).map (fun p => (v :: p.1, p.2))
      | ']' :: t₂ => some ([v], t₂)
      | _ => none
end

/-- The library's `checkValid` followed by reading the value: the input must
be exactly one JSON value, white space around it allowed.  Each nested call
of the reader consumes a character first, so twice the length of the input
is fuel enough. -/
def parseJSON (data : GoString) : Option JValue :=
  match parseValue (2 * data.length + 2) data with
  | none => none
  | some (v, rest) => if (skipSpace rest).isEmpty then some v else none

/-- The library's folding of a rune for matching field names: letters are
compared without case, and the only runes outside ASCII that fold to an
ASCII letter are the long s (U+017F) and the Kelvin sign (U+212A). -/
def foldRune (c : Char) : Char :=
  if 'a' ≤ c ∧ c ≤ 'z' then Char.ofNat (c.toNat - 32)
  else if c = Char.ofNat 0x17F then 'S'
  else if c = Char.ofNat 0x212A then 'K'
  else c

/-- Whether the member name `key` of a JSON object selects the struct field
tagged `name` (an ASCII name). -/
def equalFold (name key : GoString) : Bool := name.map foldRune == key.map foldRune

/-- The error of a JSON value whose kind does not fit the target (`UnmarshalTypeError`). -/
def jsonTypeError : GoError := .lib "json: cannot unmarshal value into Go value".toList

/-- The error of an input that is not well-formed JSON (`SyntaxError`). -/
def jsonSyntaxError : GoError := .lib "json: invalid JSON input".toList

/-- Decode into a `string` target holding `cur`. -/
def decodeString (cur : GoString) : JValue → Except GoError GoString
  | .string s => .ok s
  | .null => .ok cur
  | _ => .error jsonTypeError

/-- Decode into a struct target holding `cur`; `field` stores one member. -/
def decodeStruct {σ : Type} (field : σ → GoString → JValue → Except GoError σ) (cur : σ) :
    JValue → Except GoError σ
  | .object members => members.foldlM (fun acc m => field acc m.1 m.2) cur
  | .null => .ok cur
  | _ => .error jsonTypeError

/-- Decode into a `map[string]string` target holding `cur`: an object adds its
members to the map, `null` empties it. -/
def decodeMap (cur : GoMap GoString) : JValue → Except GoError (GoMap GoString)
  | .object members =>
    members.foldlM (fun acc m => (decodeString [] m.2).map (fun v => GoMap.set acc m.1 v)) cur
  | .null => .ok []
  | _ => .error jsonTypeError

/-- The call `json.Unmarshal(body, &secretResponse)` of `GetSecret`, the target
being `struct { Data map[string]string "json:data" }`: the resulting `Data`. -/
def unmarshalSecretResponse (body : GoString) : Except GoError (GoMap GoString) :=
  match parseJSON body with
  | none => .error jsonSyntaxError
  | some v =>
    decodeStruct
      (fun data k x => if equalFold "data".toList k then decodeMap data x else .ok data) [] v

/-- The call `json.Unmarshal(respBody, &tokenResponse)` of `Authenticate`, the
target being `struct { Auth struct { ClientToken string "json:client_token" } "json:auth" }`:
the resulting `Auth.ClientToken`. -/
def unmarshalTokenResponse (respBody : GoString) : Except GoError GoString :=
  match parseJSON respBody with
  | none => .error jsonSyntaxError
  | some v =>
    decodeStruct
      (fun auth k x =>
        if equalFold "auth".toList k then
          decodeStruct
            (fun tok k₂ x₂ =>
              if equalFold "client_token".toList k₂ then decodeString tok x₂ else .ok tok)
            auth x
        else .ok auth)
      [] v

/-- The local variable `appRole` of `GetAuthPayload`. -/
structure AppRole where
  RoleId : GoString
  SecretRoleId : GoString
deriving DecidableEq, Repr

/-- The call `json.Unmarshal(rawPayload, &appRole)` of `GetAuthPayload`. -/
def unmarshalAppRole (rawPayload : GoString) : Except GoError AppRole :=
  match parseJSON rawPayload with
  | none => .error jsonSyntaxError
  | some v =>
    decodeStruct
      (fun (a : AppRole) k x =>
        if equalFold "role_id".toList k then
          (decodeString a.RoleId x).map (fun r => { a with RoleId := r })
        else if equalFold "secret_role_id".toList k then
          (decodeString a.SecretRoleId x).map (fun r => { a with SecretRoleId := r })
        else .ok a)
      { RoleId := [], SecretRoleId := [] } v

/-! ## HTTP (package `net/http`) and the process's surroundings -/

/-- An HTTP request as the program builds it. -/
structure Request where
  Method : GoString
  URL : GoString
  Header : List (GoString × GoString)
  Body : GoString
deriving DecidableEq, Repr

/-- An HTTP response as the program reads it: `Body` is what
`ioutil.ReadAll(response.Body)` returns. -/
structure Response where
  StatusCode : Int
  Status : GoString
  Body : Except GoError GoString

/-- The `*http.Client` with the network and the server behind it.
`NewRequest method url` is the error of `http.NewRequest` (`none` when the
request can be built); `Do sent req` is what sending `req` returns when the
requests `sent` went out before it. -/
structure HttpClient where
  NewRequest : GoString → GoString → Option GoError
  Do : List Request → Request → Except GoError Response

/-- What the process has done to its surroundings: the requests handed to the
transport, the lines written with `log`, the lines printed on standard output
(each oldest first). -/
structure World where
  sent : List Request
  logged : List GoString
  stdout : List GoString
deriving DecidableEq, Repr

/-- One call of `log.Printf` / `log.Println` (the time stamp is left out). -/
def World.log (w : World) (line : GoString) : World :=
  { w with logged := w.logged ++ [line] }

/-- One call of `fmt.Println`. -/
def World.println (w : World) (line : GoString) : World :=
  { w with stdout := w.stdout ++ [line] }

/-- One call of `httpClient.Do`: the request goes out and the answer comes back. -/
def World.send (w : World) (h : HttpClient) (req : Request) :
    Except GoError Response × World :=
  (h.Do w.sent req, { w with sent := w.sent ++ [req] })

/-- The method `httpClient.Post(url, contentType, body)`. -/
def HttpClient.Post (h : HttpClient) (w : World) (url contentType body : GoString) :
    Except GoError Response × World :=
  match h.NewRequest "POST".toList url with
  | some err => (.error err, w)
  | none =>
    w.send h
      { Method := "POST".toList, URL := url,
        Header := [("Content-Type".toList, contentType)], Body := body }

deriving instance DecidableEq for Except

/-! ## `vault.go` -/

/-- The struct `VaultClient`. -/
structure VaultClient where
  httpClient : HttpClient
  baseUrl : GoString
  secretCache : GoMap (GoMap GoString)

/-- The constructor `NewVaultClient`. -/
def NewVaultClient (httpClient : HttpClient) (baseUrl : GoString) : VaultClient :=
  { httpClient := httpClient, baseUrl := baseUrl, secretCache := [] }

/-- The method `(c *VaultClient) Authenticate(body)`. -/
def Authenticate (c : VaultClient) (w : World) (body : GoString) :
    (GoString × Option GoError) × World :=
  let w := w.log ("[INFO] Authenticating to Vault at ".toList ++ c.baseUrl)
  let authUrl := c.baseUrl ++ "/v1/auth/approle/login".toList
  match c.httpClient.Post w authUrl "application/json".toList body with
  | (.error err, w) =>
    (([], some (.wrap err ("cannot do POST to get token from Vault: url=".toList ++ authUrl))), w)
  | (.ok resp, w) =>
    match resp.Body with
    | .error err => (([], some (.wrap err "cannot read Vault response body".toList)), w)
    | .ok respBody =>
      match unmarshalTokenResponse respBody with
      | .error err =>
        (([], some (.wrap err ("cannot parse Vault response body: body=".toList ++ respBody))), w)
      | .ok clientToken =>
        if clientToken = [] then
          (([], some (.errorf ("cannot find token in Vault response: body=".toList ++ respBody))), w)
        else ((clientToken, none), w)

/-- The variable `path` of `GetSecret`: `elements[0]` of
`strings.SplitN(secretPath, ":", 2)` (`none`: the index is out of range). -/
def GetSecret.path (secretPath : GoString) : Option GoString :=
  (SplitN secretPath ":".toList 2).get? 0

/-- The variable `key` of `GetSecret`: `elements[1]` when there are two
elements, else the literal `"value"` (`none`: the index is out of range). -/
def GetSecret.key (secretPath : GoString) : Option GoString :=
  let elements := SplitN secretPath ":".toList 2
  if elements.length = 2 then elements.get? 1 else some "value".toList

/-- The block `if !exists { ... }` of `GetSecret`, entered when `path` is not
in the cache: either the function leaves through one of the block's `return`
statements (or panics), or the block ends having stored the document. -/
def GetSecret.fetch (c : VaultClient) (w : World) (token secretPath path : GoString) :
    Option (Outcome (GoString × Option GoError)) × VaultClient × World :=
  let url := c.baseUrl ++ "/v1/".toList ++ path
  match c.httpClient.NewRequest "GET".toList url with
  | some _ =>
    -- `req, _ := http.NewRequest(...)` leaves `req` nil; `req.Header.Add` dereferences it
    (some (.panic "invalid memory address or nil pointer dereference".toList), c, w)
  | none =>
    let req : Request :=
      { Method := "GET".toList, URL := url,
        Header := [("X-Vault-Token".toList, token)], Body := [] }
    match w.send c.httpClient req with
    | (.error err, w) =>
      (some (.ret ([], some (.wrap err
        ("cannot get secret '".toList ++ secretPath ++ "' from Vault at ".toList ++ c.baseUrl)))),
        c, w)
    | (.ok response, w) =>
      if response.StatusCode.tdiv 100 ≠ 2 then
        (some (.ret ([], some (.errorf
          ("cannot get secret '".toList ++ secretPath ++ "' from Vault at ".toList ++ c.baseUrl
            ++ ": ".toList ++ response.Status)))), c, w)
      else
        match response.Body with
        | .error err =>
          (some (.ret ([], some (.wrap err "cannot read Vault response body".toList))), c, w)
        | .ok body =>
          match unmarshalSecretResponse body with
          | .error err =>
            (some (.ret ([], some (.wrap err
              ("cannot parse Vault response body: secret=".toList ++ secretPath
                ++ ", body=".toList ++ body ++ ", err=%!v(MISSING)".toList)))), c, w)
          | .ok data =>
            (none, { c with secretCache := GoMap.set c.secretCache path data }, w)

/-- The statements of `GetSecret` after `secretData, _ := c.secretCache[path]`:
look `key` up in the document and refuse an empty secret. -/
def GetSecret.lookup (secretData : GoMap GoString) (secretPath path key : GoString) :
    GoString × Option GoError :=
  match GoMap.get secretData key with
  | none =>
    ([], some (.errorf
      ("cannot find key '".toList ++ key ++ "' in json of path '".toList ++ path ++ "'".toList)))
  | some secret =>
    if secret = [] then
      ([], some (.errorf ("empty secret at path '".toList ++ secretPath ++ "'".toList)))
    else (secret, none)

/-- The statement `secretData, _ := c.secretCache[path]`: a missing entry reads
as the nil map. -/
def GetSecret.secretData (c : VaultClient) (path : GoString) : GoMap GoString :=
  (GoMap.get c.secretCache path).getD []

/-- The method `(c *VaultClient) GetSecret(token, name, secretPath)`: what the
call does, the client after it and the surroundings after it. -/
def GetSecret (c : VaultClient) (w : World) (token name secretPath : GoString) :
    Outcome (GoString × Option GoError) × VaultClient × World :=
  let w := w.log ("[INFO] Getting secret ".toList ++ name ++ " at ".toList ++ secretPath)
  match GetSecret.path secretPath, GetSecret.key secretPath with
  | some path, some key =>
    match GoMap.get c.secretCache path with
    | none =>
      match GetSecret.fetch c w token secretPath path with
      | (some out, c, w) => (out, c, w)
      | (none, c, w) => (.ret (GetSecret.lookup (GetSecret.secretData c path) secretPath path key), c, w)
    | some _ => (.ret (GetSecret.lookup (GetSecret.secretData c path) secretPath path key), c, w)
  | _, _ => (.panic "index out of range".toList, c, w)

/-- The struct `AppRoleDownloader`: `downloader bucket key` is what
`downloader.Download` leaves in the buffer, or its error. -/
structure AppRoleDownloader where
  downloader : GoString → GoString → Except GoError GoString

/-- The method `(d *AppRoleDownloader) GetAuthPayload(bucket, key)`. -/
def GetAuthPayload (d : AppRoleDownloader) (w : World) (bucket key : GoString) :
    (GoString × Option GoError) × World :=
  let w := w.log ("[INFO] Downloading approle credentials from S3: bucket=".toList ++ bucket
    ++ ", key=".toList ++ key)
  match d.downloader bucket key with
  | .error err =>
    (([], some (.wrap err ("cannot download approle credentials file from S3: bucket=".toList
      ++ bucket ++ ", key=".toList ++ key))), w)
  | .ok rawPayload =>
    if Contains rawPayload "secret_role_id".toList then
      let w := w.log
        "[WARN] Old version of app role detected (it contains \"secret_role_id\" key)".toList
      match unmarshalAppRole rawPayload with
      | .error err => (([], some (.wrap err "cannot parse approle credentials".toList)), w)
      | .ok appRole =>
        (("\x7b\"role_id\": \"".toList ++ appRole.RoleId ++ "\", \"secret_id\": \"".toList
          ++ appRole.SecretRoleId ++ "\"\x7d".toList, none), w)
    else ((rawPayload, none), w)

/-! ## `environment.go` -/

/-- The type `EnvVars`. -/
abbrev EnvVars := GoMap GoString

/-- The constructor `NewEmptyEnvVars`. -/
def NewEmptyEnvVars : EnvVars := []

/-- One turn of the loop of `GetEnvVarsWithPaths` (`none`: `elements[1]` is out
of range and the program panics). -/
def GetEnvVarsWithPaths.step (envVars : EnvVars) (envVar : GoString) : Option EnvVars :=
  let elements := SplitN envVar "=".toList 2
  match elements.get? 0, elements.get? 1 with
  | some name, some value =>
    if !HasSuffix name "_VAULT".toList then some envVars
    else some (GoMap.set envVars (TrimSuffix name "_VAULT".toList) value)
  | _, _ => none

/-- The loop of `GetEnvVarsWithPaths` over the rest of `env.List()`. -/
def GetEnvVarsWithPaths.loop : List GoString → EnvVars → Outcome EnvVars
  | [], envVars => .ret envVars
  | envVar :: rest, envVars =>
    match GetEnvVarsWithPaths.step envVars envVar with
    | none => .panic "index out of range [1] with length 1".toList
    | some envVars => GetEnvVarsWithPaths.loop rest envVars

/-- The function `GetEnvVarsWithPaths(env)`, `env` being what `env.List()` returns. -/
def GetEnvVarsWithPaths (env : List GoString) : Outcome EnvVars :=
  GetEnvVarsWithPaths.loop env NewEmptyEnvVars

/-- The method `(e EnvVars) ExportStrings()`.  The loop `for name, value := range e`
visits the entries in an order the Go runtime chooses; `rangeOrder e` is that
order (a rearrangement of the entries of `e`). -/
def ExportStrings (rangeOrder : EnvVars → EnvVars) (e : EnvVars) : List GoString :=
  (rangeOrder e).map (fun p => "export \"".toList ++ p.1 ++ "\"=\"".toList ++ p.2 ++ "\"".toList)

/-! ## `envvault.go` -/

/-- The struct `EnvVault`. -/
structure EnvVault where
  vaultClient : VaultClient
  authPayload : GoString

/-- The loop `for name, path := range envWithPaths` of `Run`: the error that
ends it early or the filled `envWithSecrets`. -/
def Run.loop (vaultToken : GoString) :
    VaultClient → World → List (GoString × GoString) → EnvVars →
      Outcome (Except GoError EnvVars) × VaultClient × World
  | c, w, [], envWithSecrets => (.ret (.ok envWithSecrets), c, w)
  | c, w, (name, path) :: rest, envWithSecrets =>
    match GetSecret c w vaultToken name path with
    | (.panic text, c, w) => (.panic text, c, w)
    | (.ret (_, some err), c, w) => (.ret (.error err), c, w)
    | (.ret (secret, none), c, w) =>
      Run.loop vaultToken c w rest (GoMap.set envWithSecrets name secret)

/-- The method `(e EnvVault) Run()`, `environ` being what `os.Environ()`
returns: the returned error (or the panic), the client and the surroundings
after the call.  `rangePaths` and `rangeSecrets` are the orders in which the
runtime visits `envWithPaths` in the loop of `Run` and `envWithSecrets` in
`ExportStrings` (each a rearrangement of the entries of its map). -/
def Run (e : EnvVault) (w : World) (environ : List GoString)
    (rangePaths rangeSecrets : EnvVars → EnvVars) :
    Outcome (Option GoError) × VaultClient × World :=
  match Authenticate e.vaultClient w e.authPayload with
  | ((_, some err), w) => (.ret (some err), e.vaultClient, w)
  | ((vaultToken, none), w) =>
    match GetEnvVarsWithPaths environ with
    | .panic text => (.panic text, e.vaultClient, w)
    | .ret envWithPaths =>
      match Run.loop vaultToken e.vaultClient w (rangePaths envWithPaths) NewEmptyEnvVars with
      | (.panic text, c, w) => (.panic text, c, w)
      | (.ret (.error err), c, w) => (.ret (some err), c, w)
      | (.ret (.ok envWithSecrets), c, w) =>
        (.ret none, c, (ExportStrings rangeSecrets envWithSecrets).foldl World.println w)

/-! ## Specification vocabulary -/

/-- A path reference `ref` names the document `path` and the field `key`:
`path` is what stands before the first `:` and `key` all that follows it, or,
without any `:`, `path` is the whole reference and `key` the literal `value`. -/
def SplitsInto (ref path key : GoString) : Prop :=
  (':' ∉ path ∧ ref = path ++ ':' :: key) ∨ (':' ∉ ref ∧ path = ref ∧ key = "value".toList)

/-- The request `GetSecret` builds for the document `path`. -/
def secretRequest (baseUrl token path : GoString) : Request :=
  { Method := "GET".toList, URL := baseUrl ++ "/v1/".toList ++ path,
    Header := [("X-Vault-Token".toList, token)], Body := [] }

/-- A call of `GetSecret` on client `c` in surroundings `w` obtains the document
`doc` of `path`: it is in the cache already, or it is not and the request
is answered with a status in 200..299 and a body that decodes to `doc`. -/
def Obtains (c : VaultClient) (w : World) (token path : GoString) (doc : GoMap GoString) : Prop :=
  GoMap.get c.secretCache path = some doc ∨
  (GoMap.get c.secretCache path = none ∧
    c.httpClient.NewRequest "GET".toList (c.baseUrl ++ "/v1/".toList ++ path) = none ∧
    ∃ resp body, c.httpClient.Do w.sent (secretRequest c.baseUrl token path) = .ok resp ∧
      (200 ≤ resp.StatusCode ∧ resp.StatusCode ≤ 299) ∧ resp.Body = .ok body ∧
      unmarshalSecretResponse body = .ok doc)

/-- The fetch of `path` fails: the request cannot be sent, or the status of
the answer is outside 200..299, or its body cannot be read or decoded. -/
def FetchFails (c : VaultClient) (w : World) (token path : GoString) : Prop :=
  (∃ err, c.httpClient.Do w.sent (secretRequest c.baseUrl token path) = .error err) ∨
  ∃ resp, c.httpClient.Do w.sent (secretRequest c.baseUrl token path) = .ok resp ∧
    (¬ (200 ≤ resp.StatusCode ∧ resp.StatusCode ≤ 299) ∨
      (∃ err, resp.Body = .error err) ∨
      ∃ body err, resp.Body = .ok body ∧ unmarshalSecretResponse body = .error err)

/-- The error `GetSecret` returns for a status outside 200..299
(`UpstreamStatusError`). -/
def upstreamStatusError (secretPath baseUrl status : GoString) : GoError :=
  .errorf ("cannot get secret '".toList ++ secretPath ++ "' from Vault at ".toList ++ baseUrl
    ++ ": ".toList ++ status)

/-- The error `GetSecret` returns for an empty secret (`EmptySecret`). -/
def emptySecretError (secretPath : GoString) : GoError :=
  .errorf ("empty secret at path '".toList ++ secretPath ++ "'".toList)

/-- The request `Authenticate` sends. -/
def loginRequest (baseUrl body : GoString) : Request :=
  { Method := "POST".toList, URL := baseUrl ++ "/v1/auth/approle/login".toList,
    Header := [("Content-Type".toList, "application/json".toList)], Body := body }

/-- The login request of `Authenticate` is answered with `resp`: it can be
built, and sending it returns `resp`. -/
def LoginAnswered (c : VaultClient) (w : World) (body : GoString) (resp : Response) : Prop :=
  c.httpClient.NewRequest "POST".toList (c.baseUrl ++ "/v1/auth/approle/login".toList) = none ∧
  c.httpClient.Do w.sent (loginRequest c.baseUrl body) = .ok resp

/-- The error `Authenticate` returns when the answer holds no token
(`MissingToken`). -/
def missingTokenError (respBody : GoString) : GoError :=
  .errorf ("cannot find token in Vault response: body=".toList ++ respBody)

/-- The name of an environment entry: what stands before its first `=`. -/
def entryName (entry : GoString) : GoString := entry.takeWhile (fun ch => ch != '=')

/-- The value of an environment entry: all that follows its first `=`. -/
def entryValue (entry : GoString) : GoString := (entry.dropWhile (fun ch => ch != '=')).drop 1

/-- What the mapping of `GetEnvVarsWithPaths` is to hold under the key `k`:
the value of the last entry of the environment whose name is `k` followed by
`_VAULT`, and nothing when there is no such entry. -/
def expectedPath (env : List GoString) (k : GoString) : Option GoString :=
  (env.reverse.find? (fun entry => entryName entry == k ++ "_VAULT".toList)).map entryValue

/-- The log line every call of `GetSecret` starts with. -/
def gettingSecretLine (name secretPath : GoString) : GoString :=
  "[INFO] Getting secret ".toList ++ name ++ " at ".toList ++ secretPath

/-- The line `Run` prints for a resolved name. -/
def exportLine (name secret : GoString) : GoString :=
  "export \"".toList ++ name ++ "\"=\"".toList ++ secret ++ "\"".toList

/-- Resolving the pairs one after the other, starting from client `c` in
surroundings `w`, succeeds for every pair: each call of `GetSecret` is made
on the client and in the surroundings the call before it left, each returns
its secret and no error, and the last leaves the client and surroundings
given at the end. -/
inductive Resolves (vaultToken : GoString) :
    VaultClient → World → List (GoString × GoString) → List GoString →
      VaultClient → World → Prop where
  | nil (c : VaultClient) (w : World) : Resolves vaultToken c w [] [] c w
  | cons {c c₁ c₂ : VaultClient} {w w₁ w₂ : World} {name path secret : GoString}
      {rest : List (GoString × GoString)} {secrets : List GoString} :
      GetSecret c w vaultToken name path = (.ret (secret, none), c₁, w₁) →
      Resolves vaultToken c₁ w₁ rest secrets c₂ w₂ →
      Resolves vaultToken c w ((name, path) :: rest) (secret :: secrets) c₂ w₂

/-! ## Inputs of the tests and examples -/

/-- The surroundings of a process that has done nothing yet. -/
def freshWorld : World := { sent := [], logged := [], stdout := [] }

/-- The `httptest` server of `vault_test.go` behind its client: every request
can be built and is answered with the same status and body. -/
def testClient (code : Int) (status body : GoString) : HttpClient :=
  { NewRequest := fun _ _ => none,
    Do := fun _ _ => .ok { StatusCode := code, Status := status, Body := .ok body } }

/-- The body of `TestVaultClient_GetSecret_returns_secret_at_value`:
`{"data": {"value": "this is the secret"}}`. -/
def secretAtValueBody : GoString :=
  "\x7b\"data\": \x7b\"value\": \"this is the secret\"\x7d\x7d".toList

/-- The body of `TestVaultClient_GetSecret_returns_secret_at_key`:
`{"data": {"key1": "this is the secret"}}`. -/
def secretAtKeyBody : GoString :=
  "\x7b\"data\": \x7b\"key1\": \"this is the secret\"\x7d\x7d".toList

/-- A document with two fields: `{"data": {"key1": "a", "key2": "b"}}`. -/
def twoKeysBody : GoString :=
  "\x7b\"data\": \x7b\"key1\": \"a\", \"key2\": \"b\"\x7d\x7d".toList

/-- The body of `TestVaultClient_GetSecret_returns_err_if_secret_is_empty`:
`{"data": {"value": ""}}`. -/
def emptyValueBody : GoString :=
  "\x7b\"data\": \x7b\"value\": \"\"\x7d\x7d".toList

/-- A document without fields: `{"data": {}}`. -/
def emptyDataBody : GoString :=
  "\x7b\"data\": \x7b\x7d\x7d".toList

/-- The body of `TestVaultClient_GetSecret_returns_err_if_json_cannot_be_parsed`:
`this is not a valid json {}`. -/
def notJsonBody : GoString :=
  "this is not a valid json \x7b\x7d".toList

/-- The empty object `{}`. -/
def emptyObjectBody : GoString :=
  "\x7b\x7d".toList

/-- The body of `TestVaultClient_Authenticate_returns_err_if_token_is_empty`:
`{"foo": "bar"}`. -/
def fooBarBody : GoString :=
  "\x7b\"foo\": \"bar\"\x7d".toList

/-- A login answer without a token: `{"auth":{}}`. -/
def emptyAuthBody : GoString :=
  "\x7b\"auth\":\x7b\x7d\x7d".toList

/-- The body of `TestVaultClient_Authenticate_returns_token`:
`{"auth": {"client_token": "this is the token"}}`. -/
def tokenBody : GoString :=
  "\x7b\"auth\": \x7b\"client_token\": \"this is the token\"\x7d\x7d".toList

/-- The download of `TestAppRoleDownloader_GetAuthPayload_returns_auth_payload_with_good_keys`:
`{"role_id": "myRoleId", "secret_role_id": "mySecretId"}`. -/
def legacyTestPayload : GoString :=
  "\x7b\"role_id\": \"myRoleId\", \"secret_role_id\": \"mySecretId\"\x7d".toList

/-- What that test expects: `{"role_id": "myRoleId", "secret_id": "mySecretId"}`. -/
def canonicalTestPayload : GoString :=
  "\x7b\"role_id\": \"myRoleId\", \"secret_id\": \"mySecretId\"\x7d".toList

/-- A legacy payload whose role id is the three characters `a"b`, written in
JSON with an escaped quote: `{"role_id": "a\"b", "secret_role_id": "S"}`. -/
def quotedLegacyPayload : GoString :=
  "\x7b\"role_id\": \"a\\\"b\", \"secret_role_id\": \"S\"\x7d".toList

/-- What `GetAuthPayload` makes of it: `{"role_id": "a"b", "secret_id": "S"}`. -/
def quotedResult : GoString :=
  "\x7b\"role_id\": \"a\"b\", \"secret_id\": \"S\"\x7d".toList

/-- A downloader that finds `payload` under every bucket and key. -/
def fixedDownloader (payload : GoString) : AppRoleDownloader :=
  { downloader := fun _ _ => .ok payload }

/-- A server for a whole run: the login is answered with the token `tok`, the
document `good` holds the secret `s3cret` under `value`, and every other
document is answered with the status 500. -/
def runTestClient : HttpClient :=
  { NewRequest := fun _ _ => none,
    Do := fun _ req =>
      if req.Method = "POST".toList then
        .ok { StatusCode := 200, Status := "200 OK".toList,
              Body := .ok "\x7b\"auth\": \x7b\"client_token\": \"tok\"\x7d\x7d".toList }
      else if req.URL = "http://vault/v1/good".toList then
        .ok { StatusCode := 200, Status := "200 OK".toList,
              Body := .ok "\x7b\"data\": \x7b\"value\": \"s3cret\"\x7d\x7d".toList }
      else
        .ok { StatusCode := 500, Status := "500 Internal Server Error".toList, Body := .ok [] } }

/-- The program of a run against `runTestClient`. -/
def runTestVault : EnvVault :=
  { vaultClient := NewVaultClient runTestClient "http://vault".toList,
    authPayload := "payload".toList }

/-! ## Facts about the string functions -/

theorem Index_single_none (d : Char) (s : GoString) (h : d ∉ s) : Index s [d] = none := by
  induction s with
  | nil => simp [Index]
  | cons c t ih =>
    have hc : d ≠ c := fun e => h (by simp [e])
    have ht : d ∉ t := fun m => h (List.mem_cons_of_mem _ m)
    simp [Index, List.isPrefixOf, hc, ih ht]

theorem Index_single_first (d : Char) (a b : GoString) (h : d ∉ a) :
    Index (a ++ d :: b) [d] = some a.length := by
  induction a with
  | nil => simp [Index, List.isPrefixOf]
  | cons c t ih =>
    have hc : d ≠ c := fun e => h (by simp [e])
    have ht : d ∉ t := fun m => h (List.mem_cons_of_mem _ m)
    simp [Index, List.isPrefixOf, hc, ih ht]

theorem SplitN_two_none (d : Char) (s : GoString) (h : d ∉ s) : SplitN s [d] 2 = [s] := by
  unfold SplitN
  cases s with
  | nil => simp [splitLoop]
  | cons c t => simp [splitLoop, Index_single_none d (c :: t) h]

theorem SplitN_two_first (d : Char) (a b : GoString) (h : d ∉ a) :
    SplitN (a ++ d :: b) [d] 2 = [a, b] := by
  unfold SplitN
  have hlen : ¬ (2 > (a ++ d :: b).length + 1) := by simp; omega
  simp only [hlen]
  simp [splitLoop, Index_single_first d a b h]

/-- Every string either has no `d` or splits at its first `d`. -/
theorem split_at_first (d : Char) (s : GoString) :
    d ∉ s ∨ ∃ a b, d ∉ a ∧ s = a ++ d :: b := by
  induction s with
  | nil => left; simp
  | cons c t ih =>
    by_cases hc : d = c
    · right; exact ⟨[], t, by simp, by simp [hc]⟩
    · rcases ih with h | ⟨a, b, ha, hs⟩
      · left; simp [hc, h]
      · right; exact ⟨c :: a, b, by simp [hc, ha], by simp [hs]⟩

/-! ## Facts about maps -/

theorem GoMap.get_set_same {V : Type} (m : GoMap V) (k : GoString) (v : V) :
    GoMap.get (GoMap.set m k v) k = some v := by
  induction m with
  | nil => simp [GoMap.set, GoMap.get]
  | cons e rest ih =>
    obtain ⟨k₁, v₁⟩ := e
    by_cases hk : k₁ = k
    · simp [GoMap.set, GoMap.get, hk]
    · simp [GoMap.set, GoMap.get, hk, ih]

theorem GoMap.get_set_other {V : Type} (m : GoMap V) (k q : GoString) (v : V) (hq : q ≠ k) :
    GoMap.get (GoMap.set m k v) q = GoMap.get m q := by
  induction m with
  | nil => simp [GoMap.set, GoMap.get, Ne.symm hq]
  | cons e rest ih =>
    obtain ⟨k₁, v₁⟩ := e
    by_cases hk : k₁ = k
    · subst hk
      simp [GoMap.set, GoMap.get, Ne.symm hq]
    · simp [GoMap.set, GoMap.get, hk, ih]

/-! ## Facts about `GetSecret` -/

theorem splitsInto_total (ref : GoString) : ∃ path key, SplitsInto ref path key := by
  rcases split_at_first ':' ref with h | ⟨a, b, ha, hs⟩
  · exact ⟨ref, "value".toList, Or.inr ⟨h, rfl, rfl⟩⟩
  · exact ⟨a, b, Or.inl ⟨ha, hs⟩⟩

theorem path_of_splitsInto {ref path key : GoString} (h : SplitsInto ref path key) :
    GetSecret.path ref = some path := by
  rcases h with ⟨ha, hs⟩ | ⟨hn, hp, _⟩
  · subst hs
    have := SplitN_two_first ':' path key ha
    simp [GetSecret.path, show ":".toList = [':'] from rfl, this]
  · subst hp
    have := SplitN_two_none ':' path hn
    simp [GetSecret.path, show ":".toList = [':'] from rfl, this]

theorem key_of_splitsInto {ref path key : GoString} (h : SplitsInto ref path key) :
    GetSecret.key ref = some key := by
  rcases h with ⟨ha, hs⟩ | ⟨hn, hp, hk⟩
  · subst hs
    have := SplitN_two_first ':' path key ha
    simp [GetSecret.key, show ":".toList = [':'] from rfl, this]
  · subst hp
    have := SplitN_two_none ':' path hn
    simp [GetSecret.key, show ":".toList = [':'] from rfl, this, hk]

theorem GetSecret_cached (c : VaultClient) (w : World) (token name secretPath path key : GoString)
    (doc : GoMap GoString) (h : SplitsInto secretPath path key)
    (hc : GoMap.get c.secretCache path = some doc) :
    GetSecret c w token name secretPath =
      (.ret (GetSecret.lookup doc secretPath path key), c,
        w.log (gettingSecretLine name secretPath)) := by
  simp [GetSecret, path_of_splitsInto h, key_of_splitsInto h, hc, GetSecret.secretData,
    gettingSecretLine]

theorem GetSecret_uncached (c : VaultClient) (w : World) (token name secretPath path key : GoString)
    (h : SplitsInto secretPath path key) (hc : GoMap.get c.secretCache path = none) :
    GetSecret c w token name secretPath =
      match GetSecret.fetch c (w.log (gettingSecretLine name secretPath)) token secretPath path with
      | (some out, c₁, w₁) => (out, c₁, w₁)
      | (none, c₁, w₁) =>
        (.ret (GetSecret.lookup (GetSecret.secretData c₁ path) secretPath path key), c₁, w₁) := by
  simp [GetSecret, path_of_splitsInto h, key_of_splitsInto h, hc, gettingSecretLine]

/-- What the block does when the request can be built, sent and answered. -/
theorem fetch_answered (c : VaultClient) (w : World) (token secretPath path : GoString)
    (resp : Response)
    (hreq : c.httpClient.NewRequest "GET".toList (c.baseUrl ++ "/v1/".toList ++ path) = none)
    (hdo : c.httpClient.Do w.sent (secretRequest c.baseUrl token path) = .ok resp) :
    GetSecret.fetch c w token secretPath path =
      (if resp.StatusCode.tdiv 100 ≠ 2 then
        (some (.ret ([], some (.errorf
          ("cannot get secret '".toList ++ secretPath ++ "' from Vault at ".toList ++ c.baseUrl
            ++ ": ".toList ++ resp.Status)))), c,
          { w with sent := w.sent ++ [secretRequest c.baseUrl token path] })
      else
        match resp.Body with
        | .error err =>
          (some (.ret ([], some (.wrap err "cannot read Vault response body".toList))), c,
            { w with sent := w.sent ++ [secretRequest c.baseUrl token path] })
        | .ok body =>
          match unmarshalSecretResponse body with
          | .error err =>
            (some (.ret ([], some (.wrap err
              ("cannot parse Vault response body: secret=".toList ++ secretPath
                ++ ", body=".toList ++ body ++ ", err=%!v(MISSING)".toList)))), c,
              { w with sent := w.sent ++ [secretRequest c.baseUrl token path] })
          | .ok data =>
            (none, { c with secretCache := GoMap.set c.secretCache path data },
              { w with sent := w.sent ++ [secretRequest c.baseUrl token path] })) := by
  unfold GetSecret.fetch
  simp only [hreq, World.send]
  unfold secretRequest at hdo
  simp only [hdo]
  split
  · rfl
  · cases hb : resp.Body with
    | error err => simp [secretRequest]
    | ok body =>
      cases hu : unmarshalSecretResponse body with
      | error err => simp [secretRequest]
      | ok data => simp [secretRequest]

/-- What the block does when the request can be built but sending it fails. -/
theorem fetch_unsent (c : VaultClient) (w : World) (token secretPath path : GoString)
    (err : GoError)
    (hreq : c.httpClient.NewRequest "GET".toList (c.baseUrl ++ "/v1/".toList ++ path) = none)
    (hdo : c.httpClient.Do w.sent (secretRequest c.baseUrl token path) = .error err) :
    GetSecret.fetch c w token secretPath path =
      (some (.ret ([], some (.wrap err
        ("cannot get secret '".toList ++ secretPath ++ "' from Vault at ".toList ++ c.baseUrl)))),
        c, { w with sent := w.sent ++ [secretRequest c.baseUrl token path] }) := by
  unfold GetSecret.fetch
  simp only [hreq, World.send]
  unfold secretRequest at hdo
  simp only [hdo]
  rfl

/-- What the block does when the request cannot be built. -/
theorem fetch_panics (c : VaultClient) (w : World) (token secretPath path : GoString)
    (e : GoError)
    (hreq : c.httpClient.NewRequest "GET".toList (c.baseUrl ++ "/v1/".toList ++ path) = some e) :
    GetSecret.fetch c w token secretPath path =
      (some (.panic "invalid memory address or nil pointer dereference".toList), c, w) := by
  unfold GetSecret.fetch
  simp only [hreq]

/-- The block sends exactly one request whenever the request can be built. -/
theorem fetch_sent (c : VaultClient) (w : World) (token secretPath path : GoString)
    (hreq : c.httpClient.NewRequest "GET".toList (c.baseUrl ++ "/v1/".toList ++ path) = none) :
    (GetSecret.fetch c w token secretPath path).2.2 =
      { w with sent := w.sent ++ [secretRequest c.baseUrl token path] } := by
  cases hdo : c.httpClient.Do w.sent (secretRequest c.baseUrl token path) with
  | error err => rw [fetch_unsent c w token secretPath path err hreq hdo]
  | ok resp =>
    rw [fetch_answered c w token secretPath path resp hreq hdo]
    repeat' split
    all_goals rfl

/-- The block touches no entry of the cache other than that of `path`. -/
theorem fetch_cache_other (c : VaultClient) (w : World) (token secretPath path q : GoString)
    (hq : q ≠ path) :
    GoMap.get (GetSecret.fetch c w token secretPath path).2.1.secretCache q =
      GoMap.get c.secretCache q := by
  cases hreq : c.httpClient.NewRequest "GET".toList (c.baseUrl ++ "/v1/".toList ++ path) with
  | some e => rw [fetch_panics c w token secretPath path e hreq]
  | none =>
    cases hdo : c.httpClient.Do w.sent (secretRequest c.baseUrl token path) with
    | error err => rw [fetch_unsent c w token secretPath path err hreq hdo]
    | ok resp =>
      rw [fetch_answered c w token secretPath path resp hreq hdo]
      repeat' split
      all_goals first | rfl | exact GoMap.get_set_other _ _ _ _ hq

theorem status_class_two (s : Int) : s.tdiv 100 = 2 ↔ (200 ≤ s ∧ s ≤ 299) := by
  rcases le_or_lt 0 s with h | h
  · rw [Int.tdiv_eq_ediv h (by norm_num)]; omega
  · have h2 : (-s).tdiv 100 = (-s) / 100 := Int.tdiv_eq_ediv (by omega) (by norm_num)
    have h3 : 0 ≤ (-s) / 100 := by omega
    have h4 : (-s).tdiv 100 = - (s.tdiv 100) := Int.neg_tdiv s 100
    omega

theorem log_sent (w : World) (line : GoString) : (w.log line).sent = w.sent := rfl

/-- A call that has to fetch and whose fetch succeeds. -/
theorem GetSecret_fetched (c : VaultClient) (w : World) (token name secretPath path key : GoString)
    (resp : Response) (body : GoString) (data : GoMap GoString)
    (h : SplitsInto secretPath path key) (hc : GoMap.get c.secretCache path = none)
    (hreq : c.httpClient.NewRequest "GET".toList (c.baseUrl ++ "/v1/".toList ++ path) = none)
    (hdo : c.httpClient.Do w.sent (secretRequest c.baseUrl token path) = .ok resp)
    (hst : 200 ≤ resp.StatusCode ∧ resp.StatusCode ≤ 299)
    (hb : resp.Body = .ok body) (hu : unmarshalSecretResponse body = .ok data) :
    GetSecret c w token name secretPath =
      (.ret (GetSecret.lookup data secretPath path key),
        { c with secretCache := GoMap.set c.secretCache path data },
        { w.log (gettingSecretLine name secretPath) with
          sent := w.sent ++ [secretRequest c.baseUrl token path] }) := by
  rw [GetSecret_uncached c w token name secretPath path key h hc,
    fetch_answered c (w.log (gettingSecretLine name secretPath)) token secretPath path resp hreq
      (by rw [log_sent]; exact hdo)]
  have h2 : ¬ (resp.StatusCode.tdiv 100 ≠ 2) := by
    simp only [ne_eq, not_not]; exact (status_class_two _).mpr hst
  simp only [if_neg h2, hb, hu, GetSecret.secretData, GoMap.get_set_same, Option.getD_some,
    log_sent]

/-- A call that has to fetch and whose fetch fails returns an error and leaves
the client as it was. -/
theorem GetSecret_fetch_failed (c : VaultClient) (w : World)
    (token name secretPath path key : GoString)
    (h : SplitsInto secretPath path key) (hc : GoMap.get c.secretCache path = none)
    (hreq : c.httpClient.NewRequest "GET".toList (c.baseUrl ++ "/v1/".toList ++ path) = none)
    (hf : FetchFails c w token path) :
    ∃ err, GetSecret c w token name secretPath =
      (.ret ([], some err), c,
        { w.log (gettingSecretLine name secretPath) with
          sent := w.sent ++ [secretRequest c.baseUrl token path] }) := by
  rw [GetSecret_uncached c w token name secretPath path key h hc]
  rcases hf with ⟨err, hdo⟩ | ⟨resp, hdo, hcase⟩
  · rw [fetch_unsent c (w.log (gettingSecretLine name secretPath)) token secretPath path err hreq
      (by rw [log_sent]; exact hdo)]
    exact ⟨_, rfl⟩
  · rw [fetch_answered c (w.log (gettingSecretLine name secretPath)) token secretPath path resp
      hreq (by rw [log_sent]; exact hdo)]
    by_cases h2 : resp.StatusCode.tdiv 100 ≠ 2
    · simp only [if_pos h2]
      exact ⟨_, rfl⟩
    · simp only [if_neg h2]
      have hst : 200 ≤ resp.StatusCode ∧ resp.StatusCode ≤ 299 :=
        (status_class_two _).mp (not_not.mp h2)
      rcases hcase with hn | ⟨err, hb⟩ | ⟨body, err, hb, hu⟩
      · exact absurd hst hn
      · simp only [hb]
        exact ⟨_, rfl⟩
      · simp only [hb, hu]
        exact ⟨_, rfl⟩

/-- A call that obtains the document answers from it. -/
theorem GetSecret_obtained (c : VaultClient) (w : World) (token name secretPath path key : GoString)
    (doc : GoMap GoString) (h : SplitsInto secretPath path key) (hd : Obtains c w token path doc) :
    (GetSecret c w token name secretPath).1 = .ret (GetSecret.lookup doc secretPath path key) := by
  rcases hd with hc | ⟨hc, hreq, resp, body, hdo, hst, hb, hu⟩
  · rw [GetSecret_cached c w token name secretPath path key doc h hc]
  · rw [GetSecret_fetched c w token name secretPath path key resp body doc h hc hreq hdo hst hb hu]

/-- A call that does not find `path` in the cache sends exactly one request,
for `path`, provided the request can be built. -/
theorem GetSecret_uncached_sent (c : VaultClient) (w : World)
    (token name secretPath path key : GoString)
    (h : SplitsInto secretPath path key) (hc : GoMap.get c.secretCache path = none)
    (hreq : c.httpClient.NewRequest "GET".toList (c.baseUrl ++ "/v1/".toList ++ path) = none) :
    (GetSecret c w token name secretPath).2.2.sent =
      w.sent ++ [secretRequest c.baseUrl token path] := by
  rw [GetSecret_uncached c w token name secretPath path key h hc]
  have hs := fetch_sent c (w.log (gettingSecretLine name secretPath)) token secretPath path hreq
  generalize GetSecret.fetch c (w.log (gettingSecretLine name secretPath)) token secretPath path
    = r at hs
  obtain ⟨out, c₁, w₁⟩ := r
  cases out <;> simp_all [log_sent]

/-- No lookup gives the empty string without an error. -/
theorem lookup_ne_empty_ok (doc : GoMap GoString) (secretPath path key : GoString) :
    GetSecret.lookup doc secretPath path key ≠ ([], none) := by
  unfold GetSecret.lookup
  cases GoMap.get doc key with
  | none => simp
  | some v =>
    by_cases hv : v = []
    · simp [hv]
    · simp [hv]

/-- No lookup gives the error of a bad status. -/
theorem lookup_ne_status (doc : GoMap GoString) (secretPath path key baseUrl status : GoString) :
    GetSecret.lookup doc secretPath path key ≠
      ([], some (upstreamStatusError secretPath baseUrl status)) := by
  unfold GetSecret.lookup upstreamStatusError
  cases GoMap.get doc key with
  | none => simp
  | some v =>
    by_cases hv : v = []
    · simp [hv]
    · simp [hv]

/-- When the block leaves `GetSecret` early, it never does so with the empty
string and no error. -/
theorem fetch_out_ne_empty_ok (c : VaultClient) (w : World) (token secretPath path : GoString)
    (out : Outcome (GoString × Option GoError))
    (h : (GetSecret.fetch c w token secretPath path).1 = some out) : out ≠ .ret ([], none) := by
  cases hreq : c.httpClient.NewRequest "GET".toList (c.baseUrl ++ "/v1/".toList ++ path) with
  | some e =>
    rw [fetch_panics c w token secretPath path e hreq] at h
    simp at h
    simp [← h]
  | none =>
    cases hdo : c.httpClient.Do w.sent (secretRequest c.baseUrl token path) with
    | error err =>
      rw [fetch_unsent c w token secretPath path err hreq hdo] at h
      simp at h
      simp [← h]
    | ok resp =>
      rw [fetch_answered c w token secretPath path resp hreq hdo] at h
      revert h
      repeat' split
      all_goals intro h; simp at h
      all_goals simp [← h]

/-! ## The path reference (C1) -/

/-- C1: every path reference given to `GetSecret` splits in exactly one way
into a storage path and a field key (at its first `:`; without a `:` the path
is the whole reference and the key the literal `value`), and these are the
`path` and `key` the call works with: a call that obtains the document of
`path` answers by looking `key` up in it, a call that does not find `path` in
the cache requests `<baseUrl>/v1/<path>`, and no cache entry other than that
of `path` is touched. -/
theorem GetSecret_splits_at_first_colon (c : VaultClient) (w : World)
    (token name secretPath : GoString) :
    (∃ path key, SplitsInto secretPath path key) ∧
    ∀ path key, SplitsInto secretPath path key →
      GetSecret.path secretPath = some path ∧ GetSecret.key secretPath = some key ∧
      (∀ doc, Obtains c w token path doc →
        (GetSecret c w token name secretPath).1 =
          .ret (GetSecret.lookup doc secretPath path key)) ∧
      (GoMap.get c.secretCache path = none →
        c.httpClient.NewRequest "GET".toList (c.baseUrl ++ "/v1/".toList ++ path) = none →
        (GetSecret c w token name secretPath).2.2.sent =
          w.sent ++ [secretRequest c.baseUrl token path]) ∧
      (∀ q, q ≠ path →
        GoMap.get (GetSecret c w token name secretPath).2.1.secretCache q =
          GoMap.get c.secretCache q) := by
  refine ⟨splitsInto_total secretPath, ?_⟩
  intro path key h
  refine ⟨path_of_splitsInto h, key_of_splitsInto h, ?_, ?_, ?_⟩
  · intro doc hd
    exact GetSecret_obtained c w token name secretPath path key doc h hd
  · intro hc hreq
    exact GetSecret_uncached_sent c w token name secretPath path key h hc hreq
  · intro q hq
    cases hc : GoMap.get c.secretCache path with
    | some doc => rw [GetSecret_cached c w token name secretPath path key doc h hc]
    | none =>
      rw [GetSecret_uncached c w token name secretPath path key h hc]
      have hs := fetch_cache_other c (w.log (gettingSecretLine name secretPath)) token secretPath
        path q hq
      generalize GetSecret.fetch c (w.log (gettingSecretLine name secretPath)) token secretPath
        path = r at hs
      obtain ⟨out, c₁, w₁⟩ := r
      cases out <;> simpa using hs

/-- The reference `a/b:c:d`: the storage path is `a/b`, the field key `c:d`,
and the request goes to `<baseUrl>/v1/a/b`. -/
theorem GetSecret_splits_at_first_colon_witness :
    SplitsInto "a/b:c:d".toList "a/b".toList "c:d".toList ∧
    GetSecret.path "a/b:c:d".toList = some "a/b".toList ∧
    GetSecret.key "a/b:c:d".toList = some "c:d".toList ∧
    (GetSecret (NewVaultClient (testClient 200 "200 OK".toList emptyObjectBody) "http://vault".toList)
        freshWorld "myToken".toList "var1".toList "a/b:c:d".toList).2.2.sent =
      [secretRequest "http://vault".toList "myToken".toList "a/b".toList] :=
  have hs : SplitsInto "a/b:c:d".toList "a/b".toList "c:d".toList := Or.inl ⟨by decide, rfl⟩
  have h := (GetSecret_splits_at_first_colon
    (NewVaultClient (testClient 200 "200 OK".toList emptyObjectBody) "http://vault".toList)
    freshWorld "myToken".toList "var1".toList "a/b:c:d".toList).2 _ _ hs
  ⟨hs, h.1, h.2.1, h.2.2.2.1 rfl rfl⟩

/-! ## The returned secret (C2) -/

/-- C2: when the document of the reference's storage path is obtained (cached
already, or fetched with a status in 200..299 and a body that decodes) and it
maps the reference's field key to a non-empty string `v`, `GetSecret` returns
exactly `v` and no error. -/
theorem GetSecret_returns_field (c : VaultClient) (w : World)
    (token name secretPath path key : GoString) (doc : GoMap GoString) (v : GoString)
    (hs : SplitsInto secretPath path key) (hd : Obtains c w token path doc)
    (hv : GoMap.get doc key = some v) (hne : v ≠ []) :
    (GetSecret c w token name secretPath).1 = .ret (v, none) := by
  rw [GetSecret_obtained c w token name secretPath path key doc hs hd]
  simp [GetSecret.lookup, hv, hne]

/-- The two tests of `vault_test.go` that return a secret: the body
`{"data": {"value": "this is the secret"}}` with reference `path1`, and the
body `{"data": {"key1": "this is the secret"}}` with reference `path1:key1`,
both give `this is the secret`. -/
theorem GetSecret_returns_field_witness :
    (GetSecret
        (NewVaultClient
          (testClient 200 "200 OK".toList secretAtValueBody)
          "http://vault".toList)
        freshWorld "myToken".toList "var1".toList "path1".toList).1 =
      .ret ("this is the secret".toList, none) ∧
    (GetSecret
        (NewVaultClient
          (testClient 200 "200 OK".toList secretAtKeyBody)
          "http://vault".toList)
        freshWorld "myToken".toList "var1".toList "path1:key1".toList).1 =
      .ret ("this is the secret".toList, none) :=
  ⟨GetSecret_returns_field _ freshWorld "myToken".toList "var1".toList "path1".toList
      "path1".toList "value".toList [("value".toList, "this is the secret".toList)]
      "this is the secret".toList (Or.inr ⟨by decide, rfl, rfl⟩)
      (Or.inr ⟨rfl, rfl, _, _, rfl, by decide, rfl, by decide⟩) (by decide) (by decide),
    GetSecret_returns_field _ freshWorld "myToken".toList "var1".toList "path1:key1".toList
      "path1".toList "key1".toList [("key1".toList, "this is the secret".toList)]
      "this is the secret".toList (Or.inl ⟨by decide, rfl⟩)
      (Or.inr ⟨rfl, rfl, _, _, rfl, by decide, rfl, by decide⟩) (by decide) (by decide)⟩

/-! ## One fetch per storage path (C3) -/

/-- C3: on a client made by `NewVaultClient` whose fetch of the storage path
`p` succeeds, `GetSecret` for `p:k1` followed by `GetSecret` for `p:k2` sends
exactly one request in all: the first call sends it and stores the document
under `p`; the second call sends nothing, leaves the cache as it is and
answers from the stored document, whatever the first call's field lookup
gave and whatever token and name the second call passes. -/
theorem GetSecret_second_call_hits_cache (httpClient : HttpClient) (baseUrl : GoString)
    (w : World) (token₁ token₂ name₁ name₂ p k₁ k₂ : GoString)
    (resp : Response) (body : GoString) (doc : GoMap GoString)
    (hp : ':' ∉ p)
    (hreq : httpClient.NewRequest "GET".toList (baseUrl ++ "/v1/".toList ++ p) = none)
    (hdo : httpClient.Do w.sent (secretRequest baseUrl token₁ p) = .ok resp)
    (hst : 200 ≤ resp.StatusCode ∧ resp.StatusCode ≤ 299)
    (hb : resp.Body = .ok body) (hu : unmarshalSecretResponse body = .ok doc) :
    (GetSecret (NewVaultClient httpClient baseUrl) w token₁ name₁ (p ++ ':' :: k₁)).1 =
      .ret (GetSecret.lookup doc (p ++ ':' :: k₁) p k₁) ∧
    (GetSecret (NewVaultClient httpClient baseUrl) w token₁ name₁ (p ++ ':' :: k₁)).2.2.sent =
      w.sent ++ [secretRequest baseUrl token₁ p] ∧
    (GetSecret (NewVaultClient httpClient baseUrl) w token₁ name₁ (p ++ ':' :: k₁)).2.1.secretCache =
      [(p, doc)] ∧
    (GetSecret
        (GetSecret (NewVaultClient httpClient baseUrl) w token₁ name₁ (p ++ ':' :: k₁)).2.1
        (GetSecret (NewVaultClient httpClient baseUrl) w token₁ name₁ (p ++ ':' :: k₁)).2.2
        token₂ name₂ (p ++ ':' :: k₂)).1 =
      .ret (GetSecret.lookup doc (p ++ ':' :: k₂) p k₂) ∧
    (GetSecret
        (GetSecret (NewVaultClient httpClient baseUrl) w token₁ name₁ (p ++ ':' :: k₁)).2.1
        (GetSecret (NewVaultClient httpClient baseUrl) w token₁ name₁ (p ++ ':' :: k₁)).2.2
        token₂ name₂ (p ++ ':' :: k₂)).2.2.sent =
      w.sent ++ [secretRequest baseUrl token₁ p] ∧
    (GetSecret
        (GetSecret (NewVaultClient httpClient baseUrl) w token₁ name₁ (p ++ ':' :: k₁)).2.1
        (GetSecret (NewVaultClient httpClient baseUrl) w token₁ name₁ (p ++ ':' :: k₁)).2.2
        token₂ name₂ (p ++ ':' :: k₂)).2.1.secretCache =
      [(p, doc)] := by
  have h₁ : SplitsInto (p ++ ':' :: k₁) p k₁ := Or.inl ⟨hp, rfl⟩
  have h₂ : SplitsInto (p ++ ':' :: k₂) p k₂ := Or.inl ⟨hp, rfl⟩
  have first := GetSecret_fetched (NewVaultClient httpClient baseUrl) w token₁ name₁
    (p ++ ':' :: k₁) p k₁ resp body doc h₁ rfl hreq hdo hst hb hu
  rw [first]
  have hcached : GoMap.get
      ({ NewVaultClient httpClient baseUrl with
          secretCache := GoMap.set (NewVaultClient httpClient baseUrl).secretCache p doc } :
        VaultClient).secretCache p = some doc := GoMap.get_set_same _ _ _
  rw [GetSecret_cached _ _ token₂ name₂ (p ++ ':' :: k₂) p k₂ doc h₂ hcached]
  simp [NewVaultClient, GoMap.set, World.log]

/-- A server whose document of `path1` holds `key1` and `key2`: after
resolving `path1:key1` and `path1:key2` one request has been sent, and the
second call, made with another token, is answered from the stored document. -/
theorem GetSecret_second_call_hits_cache_witness :
    (GetSecret
        (GetSecret
          (NewVaultClient
            (testClient 200 "200 OK".toList twoKeysBody)
            "http://vault".toList)
          freshWorld "myToken".toList "var1".toList "path1:key1".toList).2.1
        (GetSecret
          (NewVaultClient
            (testClient 200 "200 OK".toList twoKeysBody)
            "http://vault".toList)
          freshWorld "myToken".toList "var1".toList "path1:key1".toList).2.2
        "otherToken".toList "var2".toList "path1:key2".toList).2.2.sent =
      [secretRequest "http://vault".toList "myToken".toList "path1".toList] ∧
    (GetSecret
        (GetSecret
          (NewVaultClient
            (testClient 200 "200 OK".toList twoKeysBody)
            "http://vault".toList)
          freshWorld "myToken".toList "var1".toList "path1:key1".toList).2.1
        (GetSecret
          (NewVaultClient
            (testClient 200 "200 OK".toList twoKeysBody)
            "http://vault".toList)
          freshWorld "myToken".toList "var1".toList "path1:key1".toList).2.2
        "otherToken".toList "var2".toList "path1:key2".toList).1 =
      .ret ("b".toList, none) :=
  have h := GetSecret_second_call_hits_cache
    (testClient 200 "200 OK".toList twoKeysBody)
    "http://vault".toList freshWorld "myToken".toList "otherToken".toList "var1".toList
    "var2".toList "path1".toList "key1".toList "key2".toList _ _
    [("key1".toList, "a".toList), ("key2".toList, "b".toList)]
    (by decide) rfl rfl (by decide) rfl (by decide)
  ⟨h.2.2.2.2.1, h.2.2.2.1⟩

/-! ## Failed fetches are not cached (C4) -/

/-- C4: for a call that has to fetch, when the fetch fails (the request cannot
be sent, the status is outside 200..299, or the body cannot be read or
decoded) the call returns an error, the cache after the call is the cache
before it, the storage path is still absent, and any later call for the same
storage path sends a request again; when the fetch succeeds the decoded
`data` mapping, empty or not, is stored under the storage path. -/
theorem failed_fetch_is_not_cached (c : VaultClient) (w : World)
    (token name secretPath path key : GoString)
    (hs : SplitsInto secretPath path key) (hc : GoMap.get c.secretCache path = none)
    (hreq : c.httpClient.NewRequest "GET".toList (c.baseUrl ++ "/v1/".toList ++ path) = none) :
    (FetchFails c w token path →
      (∃ err, (GetSecret c w token name secretPath).1 = .ret ([], some err)) ∧
      (GetSecret c w token name secretPath).2.1.secretCache = c.secretCache ∧
      GoMap.get (GetSecret c w token name secretPath).2.1.secretCache path = none ∧
      ∀ (w₂ : World) (token₂ name₂ secretPath₂ key₂ : GoString),
        SplitsInto secretPath₂ path key₂ →
        (GetSecret (GetSecret c w token name secretPath).2.1 w₂ token₂ name₂ secretPath₂).2.2.sent =
          w₂.sent ++ [secretRequest c.baseUrl token₂ path]) ∧
    (∀ (resp : Response) (body : GoString) (data : GoMap GoString),
      c.httpClient.Do w.sent (secretRequest c.baseUrl token path) = .ok resp →
      (200 ≤ resp.StatusCode ∧ resp.StatusCode ≤ 299) → resp.Body = .ok body →
      unmarshalSecretResponse body = .ok data →
      (GetSecret c w token name secretPath).2.1.secretCache = GoMap.set c.secretCache path data ∧
      GoMap.get (GetSecret c w token name secretPath).2.1.secretCache path = some data) := by
  constructor
  · intro hf
    obtain ⟨err, he⟩ := GetSecret_fetch_failed c w token name secretPath path key hs hc hreq hf
    rw [he]
    refine ⟨⟨err, rfl⟩, rfl, hc, ?_⟩
    intro w₂ token₂ name₂ secretPath₂ key₂ hs₂
    exact GetSecret_uncached_sent c w₂ token₂ name₂ secretPath₂ path key₂ hs₂ hc hreq
  · intro resp body data hdo hst hb hu
    rw [GetSecret_fetched c w token name secretPath path key resp body data hs hc hreq hdo hst
      hb hu]
    exact ⟨rfl, GoMap.get_set_same _ _ _⟩

/-- The servers of the tests: a body that is not JSON leaves the cache empty
and the next call for `path1` sends a second request; the body `{"data": {}}`
is stored under `path1` as the empty mapping. -/
theorem failed_fetch_is_not_cached_witness :
    ((GetSecret
        (NewVaultClient (testClient 200 "200 OK".toList notJsonBody)
          "http://vault".toList)
        freshWorld "myToken".toList "var1".toList "path1".toList).2.1.secretCache = [] ∧
      (GetSecret
        (GetSecret
          (NewVaultClient (testClient 200 "200 OK".toList notJsonBody)
            "http://vault".toList)
          freshWorld "myToken".toList "var1".toList "path1".toList).2.1
        (GetSecret
          (NewVaultClient (testClient 200 "200 OK".toList notJsonBody)
            "http://vault".toList)
          freshWorld "myToken".toList "var1".toList "path1".toList).2.2
        "myToken".toList "var2".toList "path1:key".toList).2.2.sent =
      [secretRequest "http://vault".toList "myToken".toList "path1".toList,
        secretRequest "http://vault".toList "myToken".toList "path1".toList]) ∧
    (GetSecret
        (NewVaultClient (testClient 200 "200 OK".toList emptyDataBody)
          "http://vault".toList)
        freshWorld "myToken".toList "var1".toList "path1".toList).2.1.secretCache =
      [("path1".toList, [])] :=
  have hfail := (failed_fetch_is_not_cached
    (NewVaultClient (testClient 200 "200 OK".toList notJsonBody)
      "http://vault".toList)
    freshWorld "myToken".toList "var1".toList "path1".toList "path1".toList "value".toList
    (Or.inr ⟨by decide, rfl, rfl⟩) rfl rfl).1
    (Or.inr ⟨_, rfl, Or.inr (Or.inr ⟨_, jsonSyntaxError, rfl, by decide⟩)⟩)
  have hok := (failed_fetch_is_not_cached
    (NewVaultClient (testClient 200 "200 OK".toList emptyDataBody)
      "http://vault".toList)
    freshWorld "myToken".toList "var1".toList "path1".toList "path1".toList "value".toList
    (Or.inr ⟨by decide, rfl, rfl⟩) rfl rfl).2 _ _ [] rfl (by decide) rfl (by decide)
  ⟨⟨hfail.2.1, hfail.2.2.2 _ "myToken".toList "var2".toList "path1:key".toList "key".toList
      (Or.inl ⟨by decide, rfl⟩)⟩, hok.1⟩

/-! ## Empty secrets (C5) -/

/-- No call of `GetSecret` returns the empty string with no error. -/
theorem GetSecret_ne_empty_ok (c : VaultClient) (w : World) (token name secretPath : GoString) :
    (GetSecret c w token name secretPath).1 ≠ .ret ([], none) := by
  obtain ⟨path, key, hs⟩ := splitsInto_total secretPath
  cases hc : GoMap.get c.secretCache path with
  | some doc =>
    rw [GetSecret_cached c w token name secretPath path key doc hs hc]
    intro h
    exact lookup_ne_empty_ok doc secretPath path key (Outcome.ret.inj h)
  | none =>
    rw [GetSecret_uncached c w token name secretPath path key hs hc]
    have hout := fetch_out_ne_empty_ok c (w.log (gettingSecretLine name secretPath)) token
      secretPath path
    generalize GetSecret.fetch c (w.log (gettingSecretLine name secretPath)) token secretPath path
      = r at hout
    obtain ⟨out, c₁, w₁⟩ := r
    cases out with
    | some o => exact hout o rfl
    | none =>
      intro h
      exact lookup_ne_empty_ok _ secretPath path key (Outcome.ret.inj h)

/-- C5: when the document of the reference's storage path is obtained and maps
the reference's field key to the empty string, `GetSecret` returns the empty
string and the `EmptySecret` error, whose message is exactly
`empty secret at path '<secretPath>'` with the reference as it was passed;
and no call of `GetSecret` returns the empty string with no error. -/
theorem GetSecret_empty_secret (c : VaultClient) (w : World) (token name secretPath : GoString) :
    (∀ (path key : GoString) (doc : GoMap GoString), SplitsInto secretPath path key →
      Obtains c w token path doc → GoMap.get doc key = some [] →
      (GetSecret c w token name secretPath).1 = .ret ([], some (emptySecretError secretPath)) ∧
      (emptySecretError secretPath).Error =
        "empty secret at path '".toList ++ secretPath ++ "'".toList) ∧
    (GetSecret c w token name secretPath).1 ≠ .ret ([], none) := by
  refine ⟨?_, GetSecret_ne_empty_ok c w token name secretPath⟩
  intro path key doc hs hd hv
  rw [GetSecret_obtained c w token name secretPath path key doc hs hd]
  simp [GetSecret.lookup, hv, emptySecretError, GoError.Error]

/-- The test of the empty secret: the body `{"data": {"value": ""}}` with
reference `path1` gives the empty string and an error whose message is
`empty secret at path 'path1'`. -/
theorem GetSecret_empty_secret_witness :
    (GetSecret
        (NewVaultClient (testClient 200 "200 OK".toList emptyValueBody)
          "http://vault".toList)
        freshWorld "myToken".toList "var1".toList "path1".toList).1 =
      .ret ([], some (emptySecretError "path1".toList)) ∧
    (emptySecretError "path1".toList).Error = "empty secret at path 'path1'".toList :=
  have h := (GetSecret_empty_secret
    (NewVaultClient (testClient 200 "200 OK".toList emptyValueBody)
      "http://vault".toList)
    freshWorld "myToken".toList "var1".toList "path1".toList).1
    "path1".toList "value".toList [("value".toList, [])] (Or.inr ⟨by decide, rfl, rfl⟩)
    (Or.inr ⟨rfl, rfl, _, _, rfl, by decide, rfl, by decide⟩) (by decide)
  ⟨h.1, h.2⟩

/-! ## Statuses outside 200..299 (C6) -/

/-- C6: when an uncached call's request is answered, the call returns the
empty string with the `UpstreamStatusError` exactly when the status code is
outside 200..299 (the code tests `StatusCode / 100 != 2`); the message of that
error contains `cannot get secret '<secretPath>' from Vault`, the storage
path, the base URL and the status text of the response. -/
theorem GetSecret_status_error (c : VaultClient) (w : World)
    (token name secretPath path key : GoString) (resp : Response)
    (hs : SplitsInto secretPath path key) (hc : GoMap.get c.secretCache path = none)
    (hreq : c.httpClient.NewRequest "GET".toList (c.baseUrl ++ "/v1/".toList ++ path) = none)
    (hdo : c.httpClient.Do w.sent (secretRequest c.baseUrl token path) = .ok resp) :
    ((GetSecret c w token name secretPath).1 =
        .ret ([], some (upstreamStatusError secretPath c.baseUrl resp.Status)) ↔
      ¬ (200 ≤ resp.StatusCode ∧ resp.StatusCode ≤ 299)) ∧
    (resp.StatusCode.tdiv 100 ≠ 2 ↔ ¬ (200 ≤ resp.StatusCode ∧ resp.StatusCode ≤ 299)) ∧
    ("cannot get secret '".toList ++ secretPath ++ "' from Vault".toList) <:+:
      (upstreamStatusError secretPath c.baseUrl resp.Status).Error ∧
    path <:+: (upstreamStatusError secretPath c.baseUrl resp.Status).Error ∧
    c.baseUrl <:+: (upstreamStatusError secretPath c.baseUrl resp.Status).Error ∧
    resp.Status <:+: (upstreamStatusError secretPath c.baseUrl resp.Status).Error := by
  refine ⟨?_, not_congr (status_class_two _), ?_, ?_, ?_, ?_⟩
  · rw [GetSecret_uncached c w token name secretPath path key hs hc,
      fetch_answered c (w.log (gettingSecretLine name secretPath)) token secretPath path resp hreq
        (by rw [log_sent]; exact hdo)]
    by_cases h2 : resp.StatusCode.tdiv 100 ≠ 2
    · have hn : ¬ (200 ≤ resp.StatusCode ∧ resp.StatusCode ≤ 299) :=
        fun h => h2 ((status_class_two _).mpr h)
      simp only [if_pos h2, hn, not_false_eq_true, iff_true]
      rfl
    · have hst : 200 ≤ resp.StatusCode ∧ resp.StatusCode ≤ 299 :=
        (status_class_two _).mp (not_not.mp h2)
      simp only [if_neg h2, hst, and_self, not_true_eq_false, iff_false]
      cases hb : resp.Body with
      | error err => simp [upstreamStatusError]
      | ok body =>
        cases hu : unmarshalSecretResponse body with
        | error err => simp [hu, upstreamStatusError]
        | ok data =>
          simp only [hu]
          intro h
          exact lookup_ne_status _ secretPath path key c.baseUrl resp.Status (Outcome.ret.inj h)
  · exact ⟨[], " at ".toList ++ c.baseUrl ++ ": ".toList ++ resp.Status, by
      simp [upstreamStatusError, GoError.Error]⟩
  · rcases hs with ⟨_, hsp⟩ | ⟨_, hp, _⟩
    · exact ⟨"cannot get secret '".toList,
        ':' :: key ++ "' from Vault at ".toList ++ c.baseUrl ++ ": ".toList ++ resp.Status, by
          simp [upstreamStatusError, GoError.Error, hsp]⟩
    · exact ⟨"cannot get secret '".toList,
        "' from Vault at ".toList ++ c.baseUrl ++ ": ".toList ++ resp.Status, by
          simp [upstreamStatusError, GoError.Error, hp]⟩
  · exact ⟨"cannot get secret '".toList ++ secretPath ++ "' from Vault at ".toList,
      ": ".toList ++ resp.Status, by simp [upstreamStatusError, GoError.Error]⟩
  · exact ⟨"cannot get secret '".toList ++ secretPath ++ "' from Vault at ".toList ++ c.baseUrl
      ++ ": ".toList, [], by simp [upstreamStatusError, GoError.Error]⟩

/-- The test of the failing status: the status 500 for reference `path1`
gives the empty string and an error whose message contains
`cannot get secret 'path1' from Vault`. -/
theorem GetSecret_status_error_witness :
    (GetSecret
        (NewVaultClient (testClient 500 "500 Internal Server Error".toList [])
          "http://vault".toList)
        freshWorld "myToken".toList "var1".toList "path1".toList).1 =
      .ret ([], some (upstreamStatusError "path1".toList "http://vault".toList
        "500 Internal Server Error".toList)) ∧
    "cannot get secret 'path1' from Vault".toList <:+:
      (upstreamStatusError "path1".toList "http://vault".toList
        "500 Internal Server Error".toList).Error :=
  have h := GetSecret_status_error
    (NewVaultClient (testClient 500 "500 Internal Server Error".toList [])
      "http://vault".toList)
    freshWorld "myToken".toList "var1".toList "path1".toList "path1".toList "value".toList
    _ (Or.inr ⟨by decide, rfl, rfl⟩) rfl rfl rfl
  ⟨h.1.mpr (by decide), h.2.2.1⟩

/-! ## Authentication (C7) -/

/-- What `Authenticate` does once its request is answered with a readable body. -/
theorem Authenticate_answered (c : VaultClient) (w : World) (body : GoString) (resp : Response)
    (respBody : GoString) (h : LoginAnswered c w body resp) (hb : resp.Body = .ok respBody) :
    (Authenticate c w body).1 =
      match unmarshalTokenResponse respBody with
      | .error err =>
        ([], some (.wrap err ("cannot parse Vault response body: body=".toList ++ respBody)))
      | .ok clientToken =>
        if clientToken = [] then ([], some (missingTokenError respBody)) else (clientToken, none) := by
  obtain ⟨hreq, hdo⟩ := h
  unfold loginRequest at hdo
  unfold Authenticate
  simp only [HttpClient.Post, hreq, World.send, log_sent, hdo, hb]
  cases unmarshalTokenResponse respBody with
  | error err => rfl
  | ok tok =>
    by_cases ht : tok = []
    · simp [ht, missingTokenError]
    · simp [ht]

/-- When `Authenticate` returns no error, its request was answered with a body
that decodes to the returned token, and that token is not empty. -/
theorem Authenticate_ok (c : VaultClient) (w : World) (body tok : GoString)
    (h : (Authenticate c w body).1 = (tok, none)) :
    tok ≠ [] ∧ ∃ resp respBody, LoginAnswered c w body resp ∧ resp.Body = .ok respBody ∧
      unmarshalTokenResponse respBody = .ok tok := by
  cases hreq : c.httpClient.NewRequest "POST".toList
      (c.baseUrl ++ "/v1/auth/approle/login".toList) with
  | some e =>
    unfold Authenticate at h
    simp only [HttpClient.Post, hreq] at h
    simp at h
  | none =>
    cases hdo : c.httpClient.Do w.sent (loginRequest c.baseUrl body) with
    | error err =>
      unfold loginRequest at hdo
      unfold Authenticate at h
      simp only [HttpClient.Post, hreq, World.send, log_sent, hdo] at h
      simp at h
    | ok resp =>
      cases hb : resp.Body with
      | error err =>
        unfold loginRequest at hdo
        unfold Authenticate at h
        simp only [HttpClient.Post, hreq, World.send, log_sent, hdo, hb] at h
        simp at h
      | ok respBody =>
        rw [Authenticate_answered c w body resp respBody ⟨hreq, hdo⟩ hb] at h
        cases hu : unmarshalTokenResponse respBody with
        | error err => simp [hu] at h
        | ok t =>
          simp only [hu] at h
          by_cases ht : t = []
          · simp [ht] at h
          · simp only [if_neg ht, Prod.mk.injEq, and_true] at h
            subst h
            exact ⟨ht, resp, respBody, ⟨hreq, hdo⟩, hb, hu⟩

/-- C7: when the answer to the login request decodes (`json.Unmarshal` returns
no error) and its `auth.client_token` is absent or empty, so that the decoded
token is the empty string, `Authenticate` returns the empty string and the
`MissingToken` error, whose message is exactly
`cannot find token in Vault response: body=` followed by the response body;
and whenever `Authenticate` returns no error, the token it returns is the
non-empty `auth.client_token` decoded from the answer. -/
theorem Authenticate_missing_token (c : VaultClient) (w : World) (body : GoString) :
    (∀ (resp : Response) (respBody : GoString), LoginAnswered c w body resp →
      resp.Body = .ok respBody → unmarshalTokenResponse respBody = .ok [] →
      (Authenticate c w body).1 = ([], some (missingTokenError respBody)) ∧
      (missingTokenError respBody).Error =
        "cannot find token in Vault response: body=".toList ++ respBody) ∧
    (∀ tok : GoString, (Authenticate c w body).1 = (tok, none) →
      tok ≠ [] ∧ ∃ resp respBody, LoginAnswered c w body resp ∧ resp.Body = .ok respBody ∧
        unmarshalTokenResponse respBody = .ok tok) := by
  refine ⟨?_, fun tok h => Authenticate_ok c w body tok h⟩
  intro resp respBody h hb hu
  rw [Authenticate_answered c w body resp respBody h hb, hu]
  exact ⟨by simp, rfl⟩

/-- The bodies `{"foo": "bar"}` (the test of `vault_test.go`) and
`{"auth":{}}`: both decode to an empty token and give the `MissingToken`
error with the body in its message; and the body of the token test gives
its token. -/
theorem Authenticate_missing_token_witness :
    unmarshalTokenResponse fooBarBody = .ok [] ∧
    unmarshalTokenResponse emptyAuthBody = .ok [] ∧
    (Authenticate (NewVaultClient (testClient 200 "200 OK".toList fooBarBody) "http://vault".toList)
        freshWorld "payload".toList).1 = ([], some (missingTokenError fooBarBody)) ∧
    (missingTokenError fooBarBody).Error =
      "cannot find token in Vault response: body=\x7b\"foo\": \"bar\"\x7d".toList ∧
    (Authenticate (NewVaultClient (testClient 200 "200 OK".toList emptyAuthBody) "http://vault".toList)
        freshWorld "payload".toList).1 = ([], some (missingTokenError emptyAuthBody)) ∧
    unmarshalTokenResponse tokenBody = .ok "this is the token".toList :=
  have hfoo := (Authenticate_missing_token
    (NewVaultClient (testClient 200 "200 OK".toList fooBarBody) "http://vault".toList)
    freshWorld "payload".toList).1 _ fooBarBody ⟨rfl, rfl⟩ rfl (by decide)
  have hauth := (Authenticate_missing_token
    (NewVaultClient (testClient 200 "200 OK".toList emptyAuthBody) "http://vault".toList)
    freshWorld "payload".toList).1 _ emptyAuthBody ⟨rfl, rfl⟩ rfl (by decide)
  have htok := (Authenticate_missing_token
    (NewVaultClient (testClient 200 "200 OK".toList tokenBody) "http://vault".toList)
    freshWorld "payload".toList).2 "this is the token".toList (by decide)
  ⟨by decide, by decide, hfoo.1, hfoo.2, hauth.1, by
    obtain ⟨_, resp, respBody, ⟨_, hdo⟩, hb, hu⟩ := htok
    have hr : resp = { StatusCode := 200, Status := "200 OK".toList, Body := .ok tokenBody } := by
      simpa [NewVaultClient, testClient] using hdo.symm
    subst hr
    simp at hb
    subst hb
    exact hu⟩

/-! ## The legacy credential payload (C8) -/

/-- C8: on the test's download `{"role_id": "myRoleId", "secret_role_id": "mySecretId"}`
`GetAuthPayload` returns exactly `{"role_id": "myRoleId", "secret_id": "mySecretId"}`.
But the values are pasted between quotes without JSON escaping: the download
`{"role_id": "a\"b", "secret_role_id": "S"}` contains `secret_role_id` and
decodes to the role id `a"b` and the secret id `S`, and for it `GetAuthPayload`
returns, with no error, the bytes `{"role_id": "a"b", "secret_id": "S"}`,
which are not JSON at all, so parsing them does not give the two values back. -/
theorem GetAuthPayload_does_not_escape (w : World) (bucket key : GoString) :
    (GetAuthPayload (fixedDownloader legacyTestPayload) w bucket key).1 =
      (canonicalTestPayload, none) ∧
    Contains quotedLegacyPayload "secret_role_id".toList = true ∧
    unmarshalAppRole quotedLegacyPayload =
      .ok { RoleId := ['a', '"', 'b'], SecretRoleId := ['S'] } ∧
    (GetAuthPayload (fixedDownloader quotedLegacyPayload) w bucket key).1 = (quotedResult, none) ∧
    parseJSON quotedResult = none := by
  have h₁ : Contains legacyTestPayload "secret_role_id".toList = true := by decide
  have h₂ : unmarshalAppRole legacyTestPayload =
      .ok { RoleId := "myRoleId".toList, SecretRoleId := "mySecretId".toList } := by decide
  have h₃ : Contains quotedLegacyPayload "secret_role_id".toList = true := by decide
  have h₄ : unmarshalAppRole quotedLegacyPayload =
      .ok { RoleId := ['a', '"', 'b'], SecretRoleId := ['S'] } := by decide
  refine ⟨?_, h₃, h₄, ?_, ?_⟩
  · unfold GetAuthPayload
    simp only [fixedDownloader, h₁, h₂, if_true]
    rfl
  · unfold GetAuthPayload
    simp only [fixedDownloader, h₃, h₄, if_true]
    rfl
  · rfl

/-! ## The environment (C9) -/

theorem entryName_split (a b : GoString) (h : '=' ∉ a) : entryName (a ++ '=' :: b) = a := by
  induction a with
  | nil => simp [entryName]
  | cons c t ih =>
    have hc : c ≠ '=' := fun e => h (by simp [e])
    have ht : '=' ∉ t := fun m => h (List.mem_cons_of_mem _ m)
    have hb : (c != '=') = true := by simp [hc]
    have := ih ht
    simp only [entryName] at this ⊢
    simp only [List.cons_append, List.takeWhile_cons, hb, if_true, this]

theorem entryValue_split (a b : GoString) (h : '=' ∉ a) : entryValue (a ++ '=' :: b) = b := by
  induction a with
  | nil => simp [entryValue]
  | cons c t ih =>
    have hc : c ≠ '=' := fun e => h (by simp [e])
    have ht : '=' ∉ t := fun m => h (List.mem_cons_of_mem _ m)
    have hb : (c != '=') = true := by simp [hc]
    have := ih ht
    simp only [entryValue] at this ⊢
    simp only [List.cons_append, List.dropWhile_cons, hb, if_true, this]

theorem HasSuffix_append (k suffix : GoString) : HasSuffix (k ++ suffix) suffix = true := by
  simp [HasSuffix]

theorem TrimSuffix_append (k suffix : GoString) : TrimSuffix (k ++ suffix) suffix = k := by
  simp [TrimSuffix, HasSuffix_append]

theorem HasSuffix_split (s suffix : GoString) (h : HasSuffix s suffix = true) :
    s = TrimSuffix s suffix ++ suffix := by
  have h' := h
  simp only [HasSuffix, Bool.and_eq_true, decide_eq_true_eq, beq_iff_eq] at h'
  simp only [TrimSuffix, h, if_true]
  conv_lhs => rw [← List.take_append_drop (s.length - suffix.length) s]
  rw [h'.2]

/-- One turn of the loop on an entry that has a `=`. -/
theorem step_of_mem (envVars : EnvVars) (entry : GoString) (h : '=' ∈ entry) :
    GetEnvVarsWithPaths.step envVars entry =
      some (if HasSuffix (entryName entry) "_VAULT".toList then
        GoMap.set envVars (TrimSuffix (entryName entry) "_VAULT".toList) (entryValue entry)
      else envVars) := by
  rcases split_at_first '=' entry with hn | ⟨a, b, ha, hs⟩
  · exact absurd h hn
  · subst hs
    have hsplit := SplitN_two_first '=' a b ha
    rw [entryName_split a b ha, entryValue_split a b ha]
    unfold GetEnvVarsWithPaths.step
    simp only [show "=".toList = ['='] from rfl, hsplit]
    simp only [List.get?_cons_zero, List.get?_cons_succ]
    cases hsuf : HasSuffix a "_VAULT".toList <;> rfl

/-- Reading a key after one turn of the loop. -/
theorem get_step (envVars : EnvVars) (entry k : GoString) :
    GoMap.get
      (if HasSuffix (entryName entry) "_VAULT".toList then
        GoMap.set envVars (TrimSuffix (entryName entry) "_VAULT".toList) (entryValue entry)
      else envVars) k =
    if entryName entry = k ++ "_VAULT".toList then some (entryValue entry)
    else GoMap.get envVars k := by
  by_cases hsuf : HasSuffix (entryName entry) "_VAULT".toList = true
  · simp only [hsuf, if_true]
    have hsplit := HasSuffix_split _ _ hsuf
    by_cases hk : entryName entry = k ++ "_VAULT".toList
    · have ht : TrimSuffix (entryName entry) "_VAULT".toList = k := by
        rw [hk, TrimSuffix_append]
      rw [ht, GoMap.get_set_same, if_pos hk]
    · have ht : k ≠ TrimSuffix (entryName entry) "_VAULT".toList := by
        intro e
        apply hk
        rw [e]
        exact hsplit
      rw [GoMap.get_set_other _ _ _ _ ht, if_neg hk]
  · have hk : entryName entry ≠ k ++ "_VAULT".toList := by
      intro e
      apply hsuf
      rw [e]
      exact HasSuffix_append _ _
    simp only [hsuf, if_neg hk]
    simp

/-- Assigning to a map keeps its keys distinct. -/
theorem GoMap.set_nodup {V : Type} (m : GoMap V) (k : GoString) (v : V)
    (h : (m.map Prod.fst).Nodup) : ((GoMap.set m k v).map Prod.fst).Nodup := by
  induction m with
  | nil => simp [GoMap.set]
  | cons e rest ih =>
    obtain ⟨k₁, v₁⟩ := e
    simp only [List.map_cons, List.nodup_cons] at h
    by_cases hk : k₁ = k
    · subst hk
      simp only [GoMap.set, if_true, List.map_cons, List.nodup_cons]
      exact h
    · simp only [GoMap.set, if_neg hk, List.map_cons, List.nodup_cons]
      refine ⟨?_, ih h.2⟩
      intro hmem
      have hkeys : ∀ q, q ∈ (GoMap.set rest k v).map Prod.fst → q = k ∨ q ∈ rest.map Prod.fst := by
        intro q
        clear ih h hmem
        induction rest with
        | nil => simp [GoMap.set]
        | cons e₂ rest₂ ih₂ =>
          obtain ⟨k₂, v₂⟩ := e₂
          by_cases hk₂ : k₂ = k
          · simp only [GoMap.set, hk₂, if_true, List.map_cons, List.mem_cons]
            tauto
          · simp only [GoMap.set, if_neg hk₂, List.map_cons, List.mem_cons]
            intro hq
            rcases hq with hq | hq
            · exact Or.inr (Or.inl hq)
            · rcases ih₂ hq with h₃ | h₃
              · exact Or.inl h₃
              · exact Or.inr (Or.inr h₃)
      rcases hkeys k₁ hmem with h₃ | h₃
      · exact hk h₃
      · exact h.1 h₃

/-- The loop of `GetEnvVarsWithPaths` on entries that all have a `=`. -/
theorem loop_spec (env : List GoString) (h : ∀ entry ∈ env, '=' ∈ entry) (acc : EnvVars)
    (hacc : (acc.map Prod.fst).Nodup) :
    ∃ m, GetEnvVarsWithPaths.loop env acc = .ret m ∧ (m.map Prod.fst).Nodup ∧
      ∀ k, GoMap.get m k = (expectedPath env k).or (GoMap.get acc k) := by
  induction env generalizing acc with
  | nil => exact ⟨acc, rfl, hacc, fun k => by simp [expectedPath]⟩
  | cons entry rest ih =>
    have he : '=' ∈ entry := h entry (List.mem_cons_self _ _)
    have hrest : ∀ e ∈ rest, '=' ∈ e := fun e m => h e (List.mem_cons_of_mem _ m)
    have hnd : ((if HasSuffix (entryName entry) "_VAULT".toList then
        GoMap.set acc (TrimSuffix (entryName entry) "_VAULT".toList) (entryValue entry)
      else acc).map Prod.fst).Nodup := by
      split
      · exact GoMap.set_nodup _ _ _ hacc
      · exact hacc
    obtain ⟨m, hm, hmn, hget⟩ := ih hrest _ hnd
    refine ⟨m, ?_, hmn, ?_⟩
    · simp only [GetEnvVarsWithPaths.loop, step_of_mem acc entry he]
      exact hm
    · intro k
      rw [hget k, get_step]
      simp only [expectedPath, List.reverse_cons, List.find?_append, Option.map_or']
      cases hf : List.find? (fun e => entryName e == k ++ "_VAULT".toList) rest.reverse with
      | some x => simp
      | none =>
        by_cases hk : entryName entry = k ++ "_VAULT".toList
        · have hb : (entryName entry == k ++ "_VAULT".toList) = true := by rw [hk]; simp
          rw [if_pos hk]
          simp only [List.find?, hb]
          simp
        · have hb : (entryName entry == k ++ "_VAULT".toList) = false :=
            beq_eq_false_iff_ne.mpr hk
          rw [if_neg hk]
          simp only [List.find?, hb]
          simp

/-- C9: for every environment in which each entry contains a `=`,
`GetEnvVarsWithPaths` returns (it does not panic) a mapping with distinct keys
that holds, under each key `k`, the value of the last entry named `k_VAULT`
(the name being what stands before the first `=`, the value all that follows
it) and holds nothing under a key without such an entry; so an entry whose
name does not end in `_VAULT` contributes nothing, and the one trailing
`_VAULT` is what is removed from the name. -/
theorem GetEnvVarsWithPaths_spec (env : List GoString) (h : ∀ entry ∈ env, '=' ∈ entry) :
    ∃ m, GetEnvVarsWithPaths env = .ret m ∧ (m.map Prod.fst).Nodup ∧
      ∀ k, GoMap.get m k = expectedPath env k := by
  obtain ⟨m, hm, hnd, hget⟩ := loop_spec env h NewEmptyEnvVars (by simp [NewEmptyEnvVars])
  refine ⟨m, hm, hnd, fun k => ?_⟩
  rw [hget k]
  simp [NewEmptyEnvVars, GoMap.get]

/-- The entries of `environment_test.go`: `MY_VAR_VAULT=my/secret/path=something`
gives `MY_VAR` with the value `my/secret/path=something`, and `SOMETHING=someValue`
gives nothing. -/
theorem GetEnvVarsWithPaths_spec_witness :
    ∃ m, GetEnvVarsWithPaths
        ["MY_VAR_VAULT=my/secret/path=something".toList, "SOMETHING=someValue".toList] = .ret m ∧
      GoMap.get m "MY_VAR".toList = some "my/secret/path=something".toList ∧
      GoMap.get m "SOMETHING".toList = none :=
  match GetEnvVarsWithPaths_spec
      ["MY_VAR_VAULT=my/secret/path=something".toList, "SOMETHING=someValue".toList]
      (by decide) with
  | ⟨m, hm, _, hget⟩ =>
    ⟨m, hm, (hget "MY_VAR".toList).trans (by decide), (hget "SOMETHING".toList).trans (by decide)⟩

/-! ## The run (C10) -/

/-- The block of `GetSecret` writes no log line and prints nothing. -/
theorem fetch_quiet (c : VaultClient) (w : World) (token secretPath path : GoString) :
    (GetSecret.fetch c w token secretPath path).2.2.logged = w.logged ∧
    (GetSecret.fetch c w token secretPath path).2.2.stdout = w.stdout := by
  cases hreq : c.httpClient.NewRequest "GET".toList (c.baseUrl ++ "/v1/".toList ++ path) with
  | some e => rw [fetch_panics c w token secretPath path e hreq]; exact ⟨rfl, rfl⟩
  | none => rw [fetch_sent c w token secretPath path hreq]; exact ⟨rfl, rfl⟩

/-- A call of `GetSecret` writes its one log line and prints nothing. -/
theorem GetSecret_quiet (c : VaultClient) (w : World) (token name secretPath : GoString) :
    (GetSecret c w token name secretPath).2.2.logged =
      w.logged ++ [gettingSecretLine name secretPath] ∧
    (GetSecret c w token name secretPath).2.2.stdout = w.stdout := by
  obtain ⟨path, key, hs⟩ := splitsInto_total secretPath
  cases hc : GoMap.get c.secretCache path with
  | some doc =>
    rw [GetSecret_cached c w token name secretPath path key doc hs hc]
    exact ⟨rfl, rfl⟩
  | none =>
    rw [GetSecret_uncached c w token name secretPath path key hs hc]
    have hq := fetch_quiet c (w.log (gettingSecretLine name secretPath)) token secretPath path
    generalize GetSecret.fetch c (w.log (gettingSecretLine name secretPath)) token secretPath path
      = r at hq
    obtain ⟨out, c₁, w₁⟩ := r
    cases out <;> exact hq

/-- A call of `Authenticate` prints nothing. -/
theorem Authenticate_stdout (c : VaultClient) (w : World) (body : GoString) :
    (Authenticate c w body).2.stdout = w.stdout := by
  unfold Authenticate
  simp only [HttpClient.Post]
  cases c.httpClient.NewRequest "POST".toList (c.baseUrl ++ "/v1/auth/approle/login".toList) with
  | some e => rfl
  | none =>
    simp only [World.send]
    cases c.httpClient.Do _ _ with
    | error err => rfl
    | ok resp =>
      simp only
      cases resp.Body with
      | error err => rfl
      | ok respBody =>
        simp only
        cases unmarshalTokenResponse respBody with
        | error err => rfl
        | ok tok =>
          simp only
          split <;> rfl

/-- Printing lines one after the other. -/
theorem println_all (lines : List GoString) (w : World) :
    lines.foldl World.println w = { w with stdout := w.stdout ++ lines } := by
  induction lines generalizing w with
  | nil => simp
  | cons l rest ih => simp [ih, World.println]

/-- Assigning under a key the map does not hold yet adds the entry at the end. -/
theorem GoMap.set_new {V : Type} (m : GoMap V) (k : GoString) (v : V)
    (h : k ∉ m.map Prod.fst) : GoMap.set m k v = m ++ [(k, v)] := by
  induction m with
  | nil => rfl
  | cons e rest ih =>
    obtain ⟨k₁, v₁⟩ := e
    simp only [List.map_cons, List.mem_cons, not_or] at h
    have hk : ¬ k₁ = k := fun e => h.1 e.symm
    simp only [GoMap.set, if_neg hk, ih h.2, List.cons_append]

/-- One turn of the loop of `GetEnvVarsWithPaths` keeps the keys distinct. -/
theorem step_nodup (envVars envVars₁ : EnvVars) (entry : GoString)
    (h : GetEnvVarsWithPaths.step envVars entry = some envVars₁)
    (hnd : (envVars.map Prod.fst).Nodup) : (envVars₁.map Prod.fst).Nodup := by
  unfold GetEnvVarsWithPaths.step at h
  simp only at h
  split at h
  · split at h
    · cases h; exact hnd
    · cases h; exact GoMap.set_nodup _ _ _ hnd
  · cases h

/-- The mapping `GetEnvVarsWithPaths` returns has distinct keys. -/
theorem loop_nodup (env : List GoString) (acc m : EnvVars)
    (h : GetEnvVarsWithPaths.loop env acc = .ret m) (hnd : (acc.map Prod.fst).Nodup) :
    (m.map Prod.fst).Nodup := by
  induction env generalizing acc with
  | nil =>
    simp only [GetEnvVarsWithPaths.loop, Outcome.ret.injEq] at h
    subst h
    exact hnd
  | cons entry rest ih =>
    simp only [GetEnvVarsWithPaths.loop] at h
    cases hstep : GetEnvVarsWithPaths.step acc entry with
    | none => simp [hstep] at h
    | some acc₁ =>
      simp only [hstep] at h
      exact ih acc₁ h (step_nodup acc acc₁ entry hstep hnd)

/-- Successful calls have as many secrets as pairs. -/
theorem Resolves.length_eq {vaultToken : GoString} {c c₂ : VaultClient} {w w₂ : World}
    {pairs : List (GoString × GoString)} {secrets : List GoString}
    (h : Resolves vaultToken c w pairs secrets c₂ w₂) : secrets.length = pairs.length := by
  induction h with
  | nil => rfl
  | cons _ _ ih => simp [ih]

/-- Successful calls write one log line each and print nothing. -/
theorem Resolves.quiet {vaultToken : GoString} {c c₂ : VaultClient} {w w₂ : World}
    {pairs : List (GoString × GoString)} {secrets : List GoString}
    (h : Resolves vaultToken c w pairs secrets c₂ w₂) :
    w₂.logged = w.logged ++ pairs.map (fun p => gettingSecretLine p.1 p.2) ∧
    w₂.stdout = w.stdout := by
  induction h with
  | nil => simp
  | @cons c c₁ c₂ w w₁ w₂ name path secret rest secrets hcall _ ih =>
    have hq := GetSecret_quiet c w vaultToken name path
    rw [hcall] at hq
    simp only at hq
    rw [ih.1, ih.2, hq.1, hq.2]
    simp

/-- The loop of `Run` over pairs that all resolve goes on with the rest. -/
theorem loop_resolved {vaultToken : GoString} {c c₂ : VaultClient} {w w₂ : World}
    {pairs : List (GoString × GoString)} {secrets : List GoString}
    (h : Resolves vaultToken c w pairs secrets c₂ w₂)
    (rest : List (GoString × GoString)) (acc : EnvVars) :
    Run.loop vaultToken c w (pairs ++ rest) acc =
      Run.loop vaultToken c₂ w₂ rest
        ((pairs.zip secrets).foldl (fun m ps => GoMap.set m ps.1.1 ps.2) acc) := by
  induction h generalizing acc with
  | nil => rfl
  | @cons c c₁ c₂ w w₁ w₂ name path secret tail secrets hcall _ ih =>
    simp only [List.cons_append, Run.loop, hcall, List.zip_cons_cons, List.foldl_cons]
    exact ih _

/-- Filling an empty map under distinct names keeps the pairs in order. -/
theorem fill_distinct (names : List GoString) (secrets : List GoString) (acc : EnvVars)
    (hnd : (acc.map Prod.fst ++ names).Nodup) (hlen : secrets.length = names.length) :
    (names.zip secrets).foldl (fun m (ps : GoString × GoString) => GoMap.set m ps.1 ps.2) acc =
      acc ++ names.zip secrets := by
  induction names generalizing acc secrets with
  | nil => simp
  | cons n rest ih =>
    cases secrets with
    | nil => simp at hlen
    | cons sec secrets =>
      have hn : n ∉ acc.map Prod.fst := by
        intro hm
        have := List.nodup_append.mp hnd
        exact this.2.2 hm (List.mem_cons_self _ _)
      simp only [List.zip_cons_cons, List.foldl_cons, GoMap.set_new acc n sec hn]
      rw [ih secrets (acc ++ [(n, sec)]) (by simpa using hnd) (by simpa using hlen)]
      simp

theorem fill_by_name (pairs : List (GoString × GoString)) (secrets : List GoString)
    (acc : EnvVars) :
    (pairs.zip secrets).foldl (fun m ps => GoMap.set m ps.1.1 ps.2) acc =
      ((pairs.map Prod.fst).zip secrets).foldl
        (fun m (ps : GoString × GoString) => GoMap.set m ps.1 ps.2) acc := by
  induction pairs generalizing secrets acc with
  | nil => simp
  | cons p rest ih =>
    cases secrets with
    | nil => simp
    | cons sec secrets => simp [ih]

/-- What `Run` does once it is authenticated and has read the environment. -/
theorem Run_authenticated (e : EnvVault) (w : World) (environ : List GoString)
    (rangePaths rangeSecrets : EnvVars → EnvVars)
    (vaultToken : GoString) (w₁ : World) (envWithPaths : EnvVars)
    (hauth : Authenticate e.vaultClient w e.authPayload = ((vaultToken, none), w₁))
    (henv : GetEnvVarsWithPaths environ = .ret envWithPaths) :
    Run e w environ rangePaths rangeSecrets =
      match Run.loop vaultToken e.vaultClient w₁ (rangePaths envWithPaths) NewEmptyEnvVars with
      | (.panic text, c, w) => (.panic text, c, w)
      | (.ret (.error err), c, w) => (.ret (some err), c, w)
      | (.ret (.ok envWithSecrets), c, w) =>
        (.ret none, c, (ExportStrings rangeSecrets envWithSecrets).foldl World.println w) := by
  unfold Run
  simp only [hauth, henv]

/-- C10: in a run that is authenticated and has read its environment, the
pairs of `envWithPaths` being resolved in whatever order the runtime visits
them: if the calls for the pairs before some pair all succeed and the call for
that pair fails, `Run` returns exactly that call's error, the client and the
surroundings are those the failing call left (nothing is requested for the
pairs after it, and the log holds a line for the calls up to the failing one
only), and nothing has been printed, not even for the names resolved before;
if the calls for all pairs succeed, `Run` returns no error and has printed,
after what was printed before, the lines `export "<name>"="<secret>"`, one
per name of `envWithPaths`, in the order the runtime visits `envWithSecrets`. -/
theorem Run_stops_at_first_failure (e : EnvVault) (w : World) (environ : List GoString)
    (rangePaths rangeSecrets : EnvVars → EnvVars)
    (vaultToken : GoString) (w₁ : World) (envWithPaths : EnvVars)
    (hpaths : (rangePaths envWithPaths).Perm envWithPaths)
    (hsecrets : ∀ m, (rangeSecrets m).Perm m)
    (hauth : Authenticate e.vaultClient w e.authPayload = ((vaultToken, none), w₁))
    (henv : GetEnvVarsWithPaths environ = .ret envWithPaths) :
    (∀ (pre post : List (GoString × GoString)) (name path : GoString) (secrets : List GoString)
        (c₂ c₃ : VaultClient) (w₂ w₃ : World) (s : GoString) (err : GoError),
      rangePaths envWithPaths = pre ++ (name, path) :: post →
      Resolves vaultToken e.vaultClient w₁ pre secrets c₂ w₂ →
      GetSecret c₂ w₂ vaultToken name path = (.ret (s, some err), c₃, w₃) →
      Run e w environ rangePaths rangeSecrets = (.ret (some err), c₃, w₃) ∧
      w₃.stdout = w.stdout ∧
      w₃.logged =
        w₁.logged ++ (pre ++ [(name, path)]).map (fun p => gettingSecretLine p.1 p.2)) ∧
    (∀ (secrets : List GoString) (c₂ : VaultClient) (w₂ : World),
      Resolves vaultToken e.vaultClient w₁ (rangePaths envWithPaths) secrets c₂ w₂ →
      ∃ printed : List GoString,
        Run e w environ rangePaths rangeSecrets =
          (.ret none, c₂, { w₂ with stdout := w.stdout ++ printed }) ∧
        printed.Perm ((((rangePaths envWithPaths).map Prod.fst).zip secrets).map
          (fun p => exportLine p.1 p.2)) ∧
        printed.length = envWithPaths.length) := by
  have hw₁ : w₁.stdout = w.stdout := by
    have := Authenticate_stdout e.vaultClient w e.authPayload
    rw [hauth] at this
    exact this
  have hrun := Run_authenticated e w environ rangePaths rangeSecrets vaultToken w₁ envWithPaths
    hauth henv
  constructor
  · intro pre post name path secrets c₂ c₃ w₂ w₃ s err hsplit hres hcall
    have hloop := loop_resolved hres ((name, path) :: post) NewEmptyEnvVars
    rw [← hsplit] at hloop
    rw [hrun, hloop]
    simp only [Run.loop, hcall]
    have hq := GetSecret_quiet c₂ w₂ vaultToken name path
    rw [hcall] at hq
    simp only at hq
    refine ⟨trivial, ?_, ?_⟩
    · rw [hq.2, hres.quiet.2, hw₁]
    · rw [hq.1, hres.quiet.1]
      simp
  · intro secrets c₂ w₂ hres
    have hloop := loop_resolved hres [] NewEmptyEnvVars
    rw [List.append_nil] at hloop
    have hnd₀ : (envWithPaths.map Prod.fst).Nodup :=
      loop_nodup environ NewEmptyEnvVars envWithPaths henv (by simp [NewEmptyEnvVars])
    have hnd : ((rangePaths envWithPaths).map Prod.fst).Nodup :=
      ((hpaths.map Prod.fst).nodup_iff).mpr hnd₀
    have hfill := fill_distinct ((rangePaths envWithPaths).map Prod.fst) secrets NewEmptyEnvVars
      (by simpa [NewEmptyEnvVars] using hnd) (by simpa using hres.length_eq)
    refine ⟨ExportStrings rangeSecrets (((rangePaths envWithPaths).map Prod.fst).zip secrets),
      ?_, ?_, ?_⟩
    · rw [hrun, hloop, fill_by_name, hfill]
      simp only [Run.loop, println_all, NewEmptyEnvVars, List.nil_append]
      rw [hres.quiet.2, hw₁]
    · exact (hsecrets _).map _
    · have h₁ := (hsecrets (((rangePaths envWithPaths).map Prod.fst).zip secrets)).length_eq
      have h₂ := hpaths.length_eq
      simp only [ExportStrings, List.length_map, h₁, List.length_zip, hres.length_eq, h₂,
        min_self]

/-- Two runs against `runTestClient`, the runtime visiting the maps in
the order of their entries.  With `A_VAULT=good`, `B_VAULT=bad:k`,
`C_VAULT=good` the call for `B` fails on the status 500: `Run` returns that
error, has printed nothing, and has sent the login and two fetches only.
With `A_VAULT=good`, `C_VAULT=good:value` both calls succeed and two lines are
printed. -/
theorem Run_stops_at_first_failure_witness :
    (Run runTestVault freshWorld
        ["A_VAULT=good".toList, "B_VAULT=bad:k".toList, "C_VAULT=good".toList] id id).1 =
      .ret (some (upstreamStatusError "bad:k".toList "http://vault".toList
        "500 Internal Server Error".toList)) ∧
    (Run runTestVault freshWorld
        ["A_VAULT=good".toList, "B_VAULT=bad:k".toList, "C_VAULT=good".toList] id id).2.2.stdout
      = [] ∧
    (Run runTestVault freshWorld
        ["A_VAULT=good".toList, "B_VAULT=bad:k".toList, "C_VAULT=good".toList]
        id id).2.2.sent.length = 3 ∧
    (Run runTestVault freshWorld
        ["A_VAULT=good".toList, "C_VAULT=good:value".toList] id id).1 = .ret none ∧
    (Run runTestVault freshWorld
        ["A_VAULT=good".toList, "C_VAULT=good:value".toList] id id).2.2.stdout.length = 2 :=
  have hfail := (Run_stops_at_first_failure runTestVault freshWorld
      ["A_VAULT=good".toList, "B_VAULT=bad:k".toList, "C_VAULT=good".toList] id id
      "tok".toList (Authenticate runTestVault.vaultClient freshWorld runTestVault.authPayload).2
      [("A".toList, "good".toList), ("B".toList, "bad:k".toList), ("C".toList, "good".toList)]
      (List.Perm.refl _) (fun m => List.Perm.refl m) (by rfl) (by rfl)).1
    [("A".toList, "good".toList)] [("C".toList, "good".toList)] "B".toList "bad:k".toList
    ["s3cret".toList] _ _ _ _ [] _ rfl (Resolves.cons (by rfl) (Resolves.nil _ _)) (by rfl)
  have hok := (Run_stops_at_first_failure runTestVault freshWorld
      ["A_VAULT=good".toList, "C_VAULT=good:value".toList] id id
      "tok".toList (Authenticate runTestVault.vaultClient freshWorld runTestVault.authPayload).2
      [("A".toList, "good".toList), ("C".toList, "good:value".toList)]
      (List.Perm.refl _) (fun m => List.Perm.refl m) (by rfl) (by rfl)).2
    ["s3cret".toList, "s3cret".toList] _ _
      (Resolves.cons (by rfl) (Resolves.cons (by rfl) (Resolves.nil _ _)))
  ⟨by rw [hfail.1]; rfl, by rw [hfail.1]; exact hfail.2.1, by rw [hfail.1]; rfl,
    by obtain ⟨printed, hrun, _, _⟩ := hok; rw [hrun],
    by obtain ⟨printed, hrun, _, hlen⟩ := hok; rw [hrun]; simpa [freshWorld] using hlen⟩

end Envvault
